import Mathlib

/-!
# Corona-Virus-Live-Data: derivation pipeline

A shallow embedding of the data derivations and of the fetch orchestration of
the React application (`src/App.js`, `src/components/Dashboard.js`,
`src/components/GlobalChart.js`, `src/components/CountryStats.js`) together
with theorems about them.

Conventions of the embedding:

* counters that the provider sends as JSON integers (`cases`, `deaths`,
  `recovered`, ...) are `Int`; on such values (within the safe-integer range
  of a JavaScript Number) `+` and `-` are exact;
* the result of `/` and `*` is a JavaScript Number, modelled by `JSNum`: an
  IEEE 754 binary64 value with round-to-nearest, ties-to-even arithmetic;
* a property that may be absent (`undefined`) is an `Option`;
* an asynchronous function of `App` is two state transformers, the part
  before its `await` and the part after it, the latter taking how the request
  settled; `fetchHistoricalData` is the state once its promise has settled;
* arrays are lists; where in-place mutation matters (the `sort` of the
  ranking) the arrays live in an `ArrayStore` and a reference is a position;
* `Array.prototype.sort` is the stable sort that ECMAScript prescribes
  (`arraySort`), which is the result whenever the comparator is consistent,
  that is, whenever every entity sorted carries the sort key; `engineSort`
  follows the procedure of the V8 engine (Node.js, Chrome), which settles the
  order also when the comparator yields `NaN`, and the two agree wherever the
  first is determined (`engineSort_eq_arraySort`);
* facilities of the host whose tables are not part of the repository (`Date`
  parsing and rendering, `toLowerCase`, `toLocaleString`) are parameters, with
  an `en-US` or ASCII instance for the scenarios.
-/

namespace CoronaLive

/-! ## JavaScript Numbers -/

/-- A JavaScript Number: `NaN`, an infinity, or the finite binary64 value
`(-1)^neg * m * 2^e`. -/
inductive JSNum where
  | nan : JSNum
  | inf (neg : Bool) : JSNum
  | fin (neg : Bool) (m : Nat) (e : Int) : JSNum
  deriving DecidableEq, Repr

/-- Worker of `bitLen`: halve until zero, at most `fuel` times. -/
def bitLenAux : Nat → Nat → Nat
  | 0, _ => 0
  | fuel + 1, n => if n = 0 then 0 else bitLenAux fuel (n / 2) + 1

/-- Number of binary digits of `n` (`0` for `0`): the least `l` with `n < 2^l`. -/
def bitLen (n : Nat) : Nat := bitLenAux n n

/-- The integer nearest to `n / d`, a tie going to the even one. -/
def roundHalfEven (n d : Nat) : Nat :=
  let q := n / d
  let r := n % d
  if 2 * r < d then q
  else if d < 2 * r then q + 1
  else if q % 2 = 0 then q else q + 1

/-- The binary exponent `floor (log2 (a / b))` of a positive rational `a / b`. -/
def binExponent (a b : Nat) : Int :=
  let k : Int := (bitLen a : Int) - (bitLen b : Int)
  if b * 2 ^ k.toNat ≤ a * 2 ^ (-k).toNat then k else k - 1

/-- Round the non-negative rational `a / b` (`b ≠ 0`) to binary64, nearest
value with ties to the even significand: 53 significant bits, least exponent
`-1074` (subnormals), overflow to infinity when the rounded value reaches
`2^1024`, that is, needs more than 1024 binary digits. -/
def roundRat (neg : Bool) (a b : Nat) : JSNum :=
  if a = 0 then .fin neg 0 0
  else
    let e : Int := max (binExponent a b - 52) (-1074)
    let m := roundHalfEven (a * 2 ^ (-e).toNat) (b * 2 ^ e.toNat)
    if 1024 < (bitLen m : Int) + e then .inf neg else .fin neg m e

/-- The quotient `a / b` of two integer-valued Numbers. -/
def JSNum.divInt (a b : Int) : JSNum :=
  if b = 0 then
    if a = 0 then .nan else .inf (decide (a < 0))
  else roundRat (decide (a < 0) != decide (b < 0)) a.natAbs b.natAbs

/-- The product `x * k` of a Number and an integer-valued Number. -/
def JSNum.mulInt (x : JSNum) (k : Int) : JSNum :=
  match x with
  | .nan => .nan
  | .inf s => if k = 0 then .nan else .inf (s != decide (k < 0))
  | .fin s m e =>
      roundRat (s != decide (k < 0)) (m * k.natAbs * 2 ^ e.toNat) (2 ^ (-e).toNat)

/-- The decimal string of `n / 10` with exactly one fractional digit. -/
def renderTenths (n : Nat) : String :=
  toString (n / 10) ++ "." ++ toString (n % 10)

/-- `Number.prototype.toFixed(1)`.  A non-finite value gives its name; a finite
value below `10^21` gives the nearest multiple of `1/10` (the larger one on a
tie) with one fractional digit.  From `10^21` on JavaScript switches to the
exponent notation of `Number::toString`, which is outside this model (`none`). -/
def JSNum.toFixed1 : JSNum → Option String
  | .nan => some "NaN"
  | .inf false => some "Infinity"
  | .inf true => some "-Infinity"
  | .fin neg m e =>
      if 10 ^ 21 * 2 ^ (-e).toNat ≤ m * 2 ^ e.toNat then none
      else
        let n := (20 * m * 2 ^ e.toNat + 2 ^ (-e).toNat) / (2 * 2 ^ (-e).toNat)
        some ((if neg && m != 0 then "-" else "") ++ renderTenths n)

/-! ## Dashboard.js -/

/-- The snapshot record the provider returns for one scope. -/
structure Snapshot where
  cases : Int
  deaths : Int
  recovered : Option Int
  deriving DecidableEq, Repr

/-- The JavaScript expression `v || 0` on an optional integer. -/
def orZero : Option Int → Int
  | none => 0
  | some v => if v = 0 then 0 else v

/-- Truthiness of an optional integer: absent and `0` are falsy. -/
def truthy : Option Int → Bool
  | none => false
  | some v => v != 0

/-- `const activeCases = data.cases - (data.recovered || 0) - data.deaths`. -/
def activeCases (data : Snapshot) : Int :=
  data.cases - orZero data.recovered - data.deaths

/-- `data.recovered && data.cases ? ((data.recovered / data.cases) * 100).toFixed(1) : '0.0'`. -/
def recoveryRate (data : Snapshot) : Option String :=
  if truthy data.recovered && truthy (some data.cases) then
    ((JSNum.divInt (orZero data.recovered) data.cases).mulInt 100).toFixed1
  else some "0.0"

/-- `const deathRate = ((data.deaths / data.cases) * 100).toFixed(1)`. -/
def deathRate (data : Snapshot) : Option String :=
  ((JSNum.divInt data.deaths data.cases).mulInt 100).toFixed1

/-- The active ratio of the third card and chip:
`((activeCases / data.cases) * 100).toFixed(1)`. -/
def activeRate (data : Snapshot) : Option String :=
  ((JSNum.divInt (activeCases data) data.cases).mulInt 100).toFixed1

/-- The string `s` is a decimal rendering of `q` with exactly one fractional
digit: an integer part, a point and one digit `f`, naming a multiple of `1/10`
nearest to `q`. -/
def IsOneDecimalOf (s : String) (q : ℚ) : Prop :=
  ∃ i f : Nat, f < 10 ∧ s = toString i ++ "." ++ toString f ∧
    |(i : ℚ) + (f : ℚ) / 10 - q| ≤ 1 / 20

/-! ## Dates (the host's `Date` object) -/

/-- A calendar day. -/
structure CalDate where
  year : Nat
  month : Nat
  day : Nat
  deriving DecidableEq, Repr

/-- A `Date` object as the chart uses it: the local calendar day it denotes,
or `none` for an `Invalid Date`. -/
abbrev JSDate := Option CalDate

/-- Chronological order of calendar days. -/
def CalDate.before (a b : CalDate) : Bool :=
  decide (a.year < b.year) ||
    (a.year == b.year && (decide (a.month < b.month) ||
      (a.month == b.month && decide (a.day < b.day))))

/-- Chronological order of `Date` objects; an `Invalid Date` is before nothing
and after nothing. -/
def JSDate.before : JSDate → JSDate → Bool
  | some a, some b => a.before b
  | _, _ => false

/-- The `Date` facilities of the host that the chart calls.  `Date` parsing of
a non-ISO string and the `Intl` renderings are implementation-defined, so the
normalizer takes them as a parameter. -/
structure DateHost where
  /-- `new Date(s)`. -/
  parse : String → JSDate
  /-- `toLocaleDateString('en-US', { weekday: 'short' })`. -/
  weekdayShort : JSDate → String
  /-- `toLocaleDateString('en-US', { month: 'short', day: 'numeric' })`. -/
  monthDay : JSDate → String
  /-- `toLocaleDateString('en-US', { weekday: 'long', month: 'long', day: 'numeric', year: 'numeric' })`. -/
  fullDate : JSDate → String

/-- Value of a string of decimal digits, `none` when a character is no digit. -/
def digitsValue : List Char → Nat → Option Nat
  | [], acc => some acc
  | c :: cs, acc =>
      if c.isDigit then digitsValue cs (acc * 10 + (c.toNat - 48)) else none

/-- A non-empty string of decimal digits as a number. -/
def readNat (cs : List Char) : Option Nat :=
  if cs.isEmpty then none else digitsValue cs 0

/-- Split a character list at every `/`. -/
def splitSlash : List Char → List (List Char)
  | [] => [[]]
  | c :: cs =>
      match splitSlash cs with
      | [] => [[c]]
      | w :: ws => if c = '/' then [] :: w :: ws else (c :: w) :: ws

/-- Whether `y` is a leap year of the Gregorian calendar. -/
def isLeapYear (y : Nat) : Bool :=
  (y % 4 == 0 && y % 100 != 0) || y % 400 == 0

/-- Number of days of month `m` (1 to 12) in year `y`. -/
def daysInMonth (y m : Nat) : Nat :=
  if m = 2 then (if isLeapYear y then 29 else 28)
  else if m = 4 || m = 6 || m = 9 || m = 11 then 30 else 31

/-- Day of the week of a calendar day, `0` for Sunday. -/
def CalDate.weekday (d : CalDate) : Nat :=
  let t : List Nat := [0, 3, 2, 5, 0, 3, 5, 1, 4, 6, 2, 4]
  let y := if d.month < 3 then d.year - 1 else d.year
  (y + y / 4 - y / 100 + y / 400 + t.getD (d.month - 1) 0 + d.day) % 7

/-- English names of the days of the week, Sunday first. -/
def weekdayNames : List String :=
  ["Sunday", "Monday", "Tuesday", "Wednesday", "Thursday", "Friday", "Saturday"]

/-- English names of the months. -/
def monthNames : List String :=
  ["January", "February", "March", "April", "May", "June", "July", "August",
   "September", "October", "November", "December"]

/-- The reference host: it reads the provider's `M/D/YY` keys (a two-digit year
below 50 is in the 2000s, from 50 on in the 1900s) when they name a day of the
calendar, takes every other string for an `Invalid Date`, and renders as the
`en-US` locale does. -/
def enUS : DateHost where
  parse s :=
    match (splitSlash s.data).map readNat with
    | [some m, some d, some y] =>
        let year := if y < 50 then y + 2000 else if y < 100 then y + 1900 else y
        if 1 ≤ m && m ≤ 12 && 1 ≤ d && d ≤ daysInMonth year m then some ⟨year, m, d⟩
        else none
    | _ => none
  weekdayShort
    | none => "Invalid Date"
    | some d => String.mk ((weekdayNames.getD d.weekday "").data.take 3)
  monthDay
    | none => "Invalid Date"
    | some d =>
        String.mk ((monthNames.getD (d.month - 1) "").data.take 3) ++ " " ++ toString d.day
  fullDate
    | none => "Invalid Date"
    | some d =>
        weekdayNames.getD d.weekday "" ++ ", " ++ monthNames.getD (d.month - 1) "" ++ " " ++
          toString d.day ++ ", " ++ toString d.year

/-! ## GlobalChart.js: the historical series -/

/-- A JavaScript object used as a map from date keys to counters: its own
properties in the order `Object.keys` lists them. -/
abbrev JSObj := List (String × Int)

/-- `Object.keys(o)`. -/
def objectKeys (o : JSObj) : List String := o.map Prod.fst

/-- The historical payload (`historicalData`): three maps, each possibly absent. -/
structure Timeline where
  cases : Option JSObj
  deaths : Option JSObj
  recovered : Option JSObj
  deriving DecidableEq, Repr

/-- The body of the provider's answer (`response.data`): the three maps of the
global endpoint, or a `timeline` holding them for a country. -/
structure Body where
  cases : Option JSObj
  deaths : Option JSObj
  recovered : Option JSObj
  timeline : Option Timeline
  deriving DecidableEq, Repr

/-- How `axios.get(url)` settles. -/
inductive Response where
  /-- The promise rejects: network failure or a non-success status. -/
  | rejected : Response
  /-- The promise resolves; `data` is `none` for a `null` body. -/
  | resolved (data : Option Body) : Response
  deriving DecidableEq, Repr

/-- One element of `chartData`. -/
structure ChartPoint where
  date : String
  dateShort : String
  fullDate : String
  cases : Int
  deaths : Int
  recovered : Int
  activeCases : Int
  deriving DecidableEq, Repr

/-- The `dataAvailability` state: `{ lastUpdate, dataPoints }`. -/
structure Availability where
  lastUpdate : Option String
  dataPoints : Nat
  deriving DecidableEq, Repr

/-- The calls to `console` that `fetchHistoricalData` makes. -/
inductive ConsoleCall where
  /-- `console.warn('No historical data available for', ...)`. -/
  | warnNoData : ConsoleCall
  /-- `console.error('Error fetching historical data:', error)`: the `catch` block ran. -/
  | errorFetching : ConsoleCall
  deriving DecidableEq, Repr

/-- The state of the `GlobalChart` component that the fetch writes, together
with the console output so far. -/
structure ChartState where
  chartData : List ChartPoint
  loading : Bool
  dataAvailability : Availability
  console : List ConsoleCall
  deriving DecidableEq, Repr

/-- The state on mount: `useState([])`, `useState(true)`,
`useState({ lastUpdate: null, dataPoints: 0 })`. -/
def ChartState.initial : ChartState :=
  { chartData := [], loading := true,
    dataAvailability := { lastUpdate := none, dataPoints := 0 }, console := [] }

/-- A property read `o[date]` on a map that may itself be `undefined`: reading
a property of `undefined` throws a `TypeError` (`none`). -/
def readEntry (o : Option JSObj) (date : String) : Option (Option Int) :=
  match o with
  | none => none
  | some m => some (m.lookup date)

/-- The callback of `Object.keys(historicalData.cases).map((date, index, array) => ...)`;
`none` when it throws.  (The callback also evaluates `new Date()` into `today`,
which it never reads.) -/
def formatPoint (host : DateHost) (h : Timeline) (cases : JSObj)
    (date : String) (index length : Nat) : Option ChartPoint :=
  let dateObj := host.parse date
  let dayOfWeek := host.weekdayShort dateObj
  let monthDay := host.monthDay dateObj
  let showDayOfWeek := index % 5 == 0 || (index : Int) == (length : Int) - 1
  let c := orZero (cases.lookup date)
  match readEntry h.deaths date with
  | none => none
  | some dv =>
    match readEntry h.recovered date with
    | none => none
    | some rv =>
      let d := orZero dv
      let r := orZero rv
      some
        { date := if showDayOfWeek then dayOfWeek ++ "\n" ++ monthDay else monthDay,
          dateShort := monthDay,
          fullDate := host.fullDate dateObj,
          cases := c, deaths := d, recovered := r,
          activeCases := c - r - d }

/-- `Array.prototype.map` with a callback that may throw: the elements are
visited from left to right with their index, and the first throw ends the map. -/
def mapWithIndex {α β : Type} (f : α → Nat → Option β) : Nat → List α → Option (List β)
  | _, [] => some []
  | i, a :: as =>
      match f a i with
      | none => none
      | some b =>
          match mapWithIndex f (i + 1) as with
          | none => none
          | some bs => some (b :: bs)

/-- `formattedData`: the map over the keys of the `cases` map. -/
def formattedData (host : DateHost) (h : Timeline) (cases : JSObj) : Option (List ChartPoint) :=
  let array := objectKeys cases
  mapWithIndex (fun date index => formatPoint host h cases date index array.length) 0 array

/-- The `historicalData` of a resolved response:
`selectedCountry === 'Global' ? response.data : response.data.timeline`.
The outer `none` is the `TypeError` of reading `timeline` of a `null` body. -/
def historicalDataOf (selectedCountry : String) (data : Option Body) : Option (Option Timeline) :=
  if selectedCountry = "Global" then
    some (data.map fun b => { cases := b.cases, deaths := b.deaths, recovered := b.recovered })
  else
    match data with
    | none => none
    | some b => some b.timeline

/-- The `catch` block followed by `finally`. -/
def fetchFailed (s : ChartState) : ChartState :=
  { chartData := [], loading := false,
    dataAvailability := { lastUpdate := none, dataPoints := 0 },
    console := s.console ++ [ConsoleCall.errorFetching] }

/-- The body of the `try` once `historicalData` is known, followed by `finally`. -/
def normalize (host : DateHost) (s : ChartState) (historicalData : Option Timeline) : ChartState :=
  match historicalData with
  | none =>
      { s with chartData := [], loading := false,
               console := s.console ++ [ConsoleCall.warnNoData] }
  | some h =>
    match h.cases with
    | none =>
        { s with chartData := [], loading := false,
                 console := s.console ++ [ConsoleCall.warnNoData] }
    | some cases =>
      if (objectKeys cases).length = 0 then
        { s with chartData := [], loading := false,
                 console := s.console ++ [ConsoleCall.warnNoData] }
      else
        match formattedData host h cases with
        | none => fetchFailed s
        | some formatted =>
            { s with chartData := formatted, loading := false,
                     dataAvailability :=
                       { lastUpdate := formatted.getLast?.map (·.fullDate),
                         dataPoints := formatted.length } }

/-- One run of `fetchHistoricalData` from state `s`, given how the request
settles: the state once the returned promise has settled. -/
def fetchHistoricalData (host : DateHost) (selectedCountry : String) (s : ChartState)
    (response : Response) : ChartState :=
  match response with
  | .rejected => fetchFailed s
  | .resolved data =>
    match historicalDataOf selectedCountry data with
    | none => fetchFailed s
    | some historicalData => normalize host s historicalData

/-! ## CountryStats.js: the ranking -/

/-- An element of `countries`; a counter the provider leaves out is `none`. -/
structure Country where
  country : String
  cases : Option Int
  deaths : Option Int
  recovered : Option Int
  active : Option Int
  deriving DecidableEq, Repr

/-- The values `sortBy` takes: the initial `'cases'` and the four chips. -/
inductive SortKey where
  | cases : SortKey
  | deaths : SortKey
  | recovered : SortKey
  | active : SortKey
  deriving DecidableEq, Repr

/-- The property read `a[sortBy]`. -/
def Country.get (a : Country) : SortKey → Option Int
  | .cases => a.cases
  | .deaths => a.deaths
  | .recovered => a.recovered
  | .active => a.active

/-- The comparator `(a, b) => b[sortBy] - a[sortBy]`; `none` is `NaN`, the
difference when one of the two properties is `undefined`. -/
def compareFn (sortBy : SortKey) (a b : Country) : Option Int :=
  match b.get sortBy, a.get sortBy with
  | some vb, some va => some (vb - va)
  | _, _ => none

/-- Whether `Array.prototype.sort` may leave `a` before `b`: the comparator's
value is not positive (a `NaN` counts as `0`). -/
def sortsBefore (sortBy : SortKey) (a b : Country) : Prop :=
  match compareFn sortBy a b with
  | none => True
  | some v => v ≤ 0

instance (sortBy : SortKey) : DecidableRel (sortsBefore sortBy) := fun a b => by
  unfold sortsBefore
  cases compareFn sortBy a b <;> infer_instance

/-- The lower-casing of the letters `A` to `Z`, other characters kept: what
`String.prototype.toLowerCase` does on the names of the scenarios.  The
ranking takes the lower-casing as a parameter, the Unicode case tables not
being part of the repository. -/
def asciiLowerCase (s : String) : String := String.mk (s.data.map Char.toLower)

/-- `s.includes(t)`: `t` occurs in `s` as a contiguous run. -/
def includes (s t : String) : Bool := decide (t.data <:+: s.data)

/-- `Array.prototype.sort(compareFn)`: a stable sort (ECMAScript 2019), so for a
consistent comparator its result is determined; computed here by insertion.
The comparator of the ranking is consistent when every entity sorted carries
the sort key.  When a key is absent the comparator yields `NaN`, ECMAScript
leaves the order to the engine, and `engineSort` is what the engine does. -/
def arraySort (sortBy : SortKey) (l : List Country) : List Country :=
  List.insertionSort (sortsBefore sortBy) l

/-- The predicate of the filter: the lower-cased name contains the lower-cased
search term. -/
def nameMatches (toLowerCase : String → String) (searchTerm : String) (country : Country) :
    Bool :=
  includes (toLowerCase country.country) (toLowerCase searchTerm)

/-- `countries.filter(...)`: the entities whose name matches the search term. -/
def matching (toLowerCase : String → String) (countries : List Country)
    (searchTerm : String) : List Country :=
  countries.filter (nameMatches toLowerCase searchTerm)

/-- `filteredCountries`: filter, sort, `slice(0, 10)`. -/
def filteredCountries (toLowerCase : String → String) (countries : List Country)
    (searchTerm : String) (sortBy : SortKey) : List Country :=
  (arraySort sortBy (matching toLowerCase countries searchTerm)).take 10

/-- Whether the engine takes `x` to sort before `y`: `compareFn(x, y) < 0`, a
`NaN` being read as `0`.  It is the only test the engine's sort makes. -/
def comesBefore (sortBy : SortKey) (x y : Country) : Bool :=
  match compareFn sortBy x y with
  | some v => decide (v < 0)
  | none => false

/-- How many of the elements after `previous` continue the run that starts the
array: in a descending run each element sorts before its predecessor, in an
ascending run none does. -/
def runTail (before : Country → Country → Bool) (descending : Bool) :
    Country → List Country → Nat
  | _, [] => 0
  | previous, current :: rest =>
    if before current previous = descending then runTail before descending current rest + 1
    else 0

/-- First phase of the engine's sort: the longest run at the start of the
array, reversed when it is descending, and the elements after it.  The run is
descending when the second element sorts before the first. -/
def makeRun (before : Country → Country → Bool) : List Country → List Country × List Country
  | first :: second :: rest =>
    let descending := before second first
    let n := runTail before descending second rest + 2
    let run := (first :: second :: rest).take n
    (if descending then run.reverse else run, (first :: second :: rest).drop n)
  | l => (l, [])

/-- The binary search of the second phase, between the positions `left` and
`right` of the sorted part: the middle element is the one at
`left + ((right - left) >> 1)`; when the pivot sorts before it the search goes
on to its left, otherwise to its right.  `fuel` bounds the number of halvings. -/
def bisect (before : Country → Country → Bool) (pivot : Country) (sorted : List Country) :
    Nat → Nat → Nat → Nat
  | 0, left, _ => left
  | fuel + 1, left, right =>
    if left < right then
      match sorted[left + (right - left) / 2]? with
      | some element =>
        if before pivot element then
          bisect before pivot sorted fuel left (left + (right - left) / 2)
        else bisect before pivot sorted fuel (left + (right - left) / 2 + 1) right
      | none => left
    else left

/-- One step of the second phase: the pivot is put into the sorted part at the
position the binary search finds. -/
def binaryInsert (before : Country → Country → Bool) (sorted : List Country)
    (pivot : Country) : List Country :=
  sorted.take (bisect before pivot sorted sorted.length 0 sorted.length) ++
    pivot :: sorted.drop (bisect before pivot sorted sorted.length 0 sorted.length)

/-- `Array.prototype.sort(compareFn)` as the V8 engine (Node.js, Chrome) carries
it out on an array of fewer than 64 elements: the run at the start of the array
is found, and the elements after it are put into it one by one by binary
insertion.  Longer arrays are cut into several such runs which are then merged;
that is not followed here, and it changes nothing when the comparator is
consistent, the result then being the stable sort whatever the procedure. -/
def engineSort (before : Country → Country → Bool) (l : List Country) : List Country :=
  (makeRun before l).2.foldl (binaryInsert before) (makeRun before l).1

/-- The expression of `filteredCountries` with the sort carried out as the
engine does: filter, sort, `slice(0, 10)`.  It gives the order of the ranking
also when an entity lacks the sort key. -/
def filteredCountriesOnEngine (toLowerCase : String → String) (countries : List Country)
    (searchTerm : String) (sortBy : SortKey) : List Country :=
  (engineSort (comesBefore sortBy) (matching toLowerCase countries searchTerm)).take 10

/-! ## CountryStats.js: `formatNumber` -/

/-- What `formatNumber` returns: a string, or the Number `0` of `|| 0`. -/
inductive Formatted where
  | text (s : String) : Formatted
  | zero : Formatted
  deriving DecidableEq, Repr

/-- The text a value of `formatNumber` is displayed as, in a template literal
and as a JSX child alike: a string as it is, the Number `0` as `0`. -/
def Formatted.display : Formatted → String
  | .text s => s
  | .zero => "0"

/-- `formatNumber(num)`; `num` is `none` for `null` and `undefined`, and
`toLocaleString` is the host's `Number.prototype.toLocaleString()` in its
default locale.  The outer `none` is the exponent notation of `toFixed`,
outside the model. -/
def formatNumber (toLocaleString : Int → String) (num : Option Int) : Option Formatted :=
  match num with
  | none => some .zero
  | some n =>
      if 1000000 ≤ n then
        (JSNum.divInt n 1000000).toFixed1.map fun s => .text (s ++ "M")
      else if 1000 ≤ n then
        (JSNum.divInt n 1000).toFixed1.map fun s => .text (s ++ "K")
      else
        let s := toLocaleString n
        if s = "" then some .zero else some (.text s)

/-- Insert a comma after every third character of a list that still has a
character to follow. -/
def groupThree : List Char → List Char
  | a :: b :: c :: d :: rest => a :: b :: c :: ',' :: groupThree (d :: rest)
  | l => l

/-- `toLocaleString()` of an integer in the `en-US` locale: digits grouped in
threes by commas, a minus sign before a negative value. -/
def enUSNumber (n : Int) : String :=
  (if n < 0 then "-" else "") ++
    String.mk (groupThree (toString n.natAbs).data.reverse).reverse

/-! ## App.js: the fetch orchestration -/

/-- How a request made with `axios.get` settles: the promise rejects, or it
resolves and `response.data` is `data`. -/
inductive Settled (α : Type) where
  | rejected : Settled α
  | resolved (data : α) : Settled α
  deriving DecidableEq, Repr

/-- The state of the `App` component, together with the URLs requested so far. -/
structure AppState where
  data : Option Snapshot
  countries : List Country
  selectedCountry : String
  loading : Bool
  error : Option String
  requests : List String
  deriving DecidableEq, Repr

/-- The state on mount: `useState(null)`, `useState([])`, `useState('Global')`,
`useState(true)`, `useState(null)`. -/
def AppState.initial : AppState :=
  { data := none, countries := [], selectedCountry := "Global", loading := true,
    error := none, requests := [] }

/-- The URL of the global snapshot. -/
def urlAll : String := "https://disease.sh/v3/covid-19/all"

/-- The URL of the entity collection. -/
def urlCountries : String := "https://disease.sh/v3/covid-19/countries"

/-- The URL of the snapshot of one country. -/
def urlCountry (country : String) : String :=
  "https://disease.sh/v3/covid-19/countries/" ++ country

/-- `fetchData` up to its `await`: `setLoading(true)` and the two requests. -/
def fetchDataDispatch (s : AppState) : AppState :=
  { s with loading := true, requests := s.requests ++ [urlAll, urlCountries] }

/-- `fetchData` from its `await` on: `Promise.all` resolves when both requests
resolve and rejects when one of them rejects. -/
def fetchDataSettle (s : AppState) (globalResponse : Settled (Option Snapshot))
    (countriesResponse : Settled (List Country)) : AppState :=
  match globalResponse, countriesResponse with
  | .resolved g, .resolved cs => { s with data := g, countries := cs, loading := false }
  | _, _ =>
      { s with error := some "Failed to fetch data. Please try again later.",
               loading := false }

/-- `fetchGlobalData` up to its `await`. -/
def fetchGlobalDataDispatch (s : AppState) : AppState :=
  { s with loading := true, requests := s.requests ++ [urlAll] }

/-- `fetchGlobalData` from its `await` on. -/
def fetchGlobalDataSettle (s : AppState) (response : Settled (Option Snapshot)) : AppState :=
  match response with
  | .resolved d => { s with data := d, loading := false }
  | .rejected => { s with error := some "Failed to fetch global data.", loading := false }

/-- `fetchCountryData(country)` up to its `await`. -/
def fetchCountryDataDispatch (country : String) (s : AppState) : AppState :=
  { s with loading := true, requests := s.requests ++ [urlCountry country] }

/-- `fetchCountryData(country)` from its `await` on. -/
def fetchCountryDataSettle (country : String) (s : AppState)
    (response : Settled (Option Snapshot)) : AppState :=
  match response with
  | .resolved d => { s with data := d, loading := false }
  | .rejected =>
      { s with error := some ("Failed to fetch data for " ++ country ++ "."),
               loading := false }

/-- `handleCountryChange` followed by the effect on `selectedCountry`: a new
value is stored and its snapshot requested; the value already selected
changes nothing. -/
def selectCountry (s : AppState) (value : String) : AppState :=
  if value = s.selectedCountry then s
  else if value ≠ "Global" then
    fetchCountryDataDispatch value { s with selectedCountry := value }
  else fetchGlobalDataDispatch { s with selectedCountry := value }

/-- The completion of the snapshot request that the selection of `selection`
dispatched. -/
def settleSelection (selection : String) (s : AppState)
    (response : Settled (Option Snapshot)) : AppState :=
  if selection ≠ "Global" then fetchCountryDataSettle selection s response
  else fetchGlobalDataSettle s response

/-- The two effects of the first render: `fetchData()` and, `selectedCountry`
being `'Global'`, `fetchGlobalData()`. -/
def mount : AppState := fetchGlobalDataDispatch (fetchDataDispatch AppState.initial)

/-- The run of the stale-completion scenario: from `s`, `a` is selected, then
`b`; the answer for `b` arrives first, the answer for `a` last. -/
def overlappingRun (s : AppState) (a b : String) (ra rb : Option Snapshot) : AppState :=
  settleSelection a
    (settleSelection b (selectCountry (selectCountry s a) b) (.resolved rb)) (.resolved ra)

/-- The points render, in order, the dates `ds`: point `i` carries the
month-day label and the full date of `ds[i]`. -/
def RendersDates (host : DateHost) (pts : List ChartPoint) (ds : List JSDate) : Prop :=
  pts.map (fun p => (p.dateShort, p.fullDate)) =
    ds.map (fun t => (host.monthDay t, host.fullDate t))

/-- A sequence of dates is strictly increasing: every date is before all later ones. -/
def StrictlyIncreasing (ds : List JSDate) : Prop :=
  ds.Pairwise (fun a b => JSDate.before a b = true)

instance (ds : List JSDate) : Decidable (StrictlyIncreasing ds) := by
  unfold StrictlyIncreasing
  infer_instance

/-! ## GlobalChart.js: the pie chart -/

/-- One element of `pieData`. -/
structure PieSlice where
  name : String
  value : Int
  color : String
  deriving DecidableEq, Repr

/-- `pieData`: three slices for a snapshot, none while `data` is `null`. -/
def pieData (data : Option Snapshot) : List PieSlice :=
  match data with
  | none => []
  | some d =>
      [ { name := "Recovered", value := orZero d.recovered, color := "#4caf50" },
        { name := "Active", value := d.cases - orZero d.recovered - d.deaths,
          color := "#ff9800" },
        { name := "Deaths", value := d.deaths, color := "#f44336" } ]

/-! ## CountryStats.js: the ranking on the array store -/

/-- The arrays of the JavaScript heap: an array reference is a position of the
store, and the array it refers to is the list held there. -/
abbrev ArrayStore := List (List Country)

/-- The array a reference refers to (empty for a reference to nothing). -/
def ArrayStore.read (store : ArrayStore) (ref : Nat) : List Country :=
  store[ref]?.getD []

/-- A new array: it is appended to the store, and its reference returned. -/
def ArrayStore.alloc (store : ArrayStore) (elements : List Country) : ArrayStore × Nat :=
  (store ++ [elements], store.length)

/-- `Array.prototype.filter`: the matches go into a new array. -/
def arrayFilter (store : ArrayStore) (ref : Nat) (p : Country → Bool) : ArrayStore × Nat :=
  store.alloc ((store.read ref).filter p)

/-- `Array.prototype.sort`: the array is sorted in place and itself returned. -/
def arraySortInPlace (sortBy : SortKey) (store : ArrayStore) (ref : Nat) : ArrayStore × Nat :=
  (store.set ref (arraySort sortBy (store.read ref)), ref)

/-- `Array.prototype.slice(0, 10)`: the first ten elements go into a new array. -/
def arraySliceTen (store : ArrayStore) (ref : Nat) : ArrayStore × Nat :=
  store.alloc ((store.read ref).take 10)

/-- `filteredCountries` on the store: `countries` is the reference of the
collection, and the result is the store afterwards with the reference of the
ranking. -/
def filteredCountriesInStore (toLowerCase : String → String) (store : ArrayStore)
    (countries : Nat) (searchTerm : String) (sortBy : SortKey) : ArrayStore × Nat :=
  let filtered := arrayFilter store countries (nameMatches toLowerCase searchTerm)
  let sorted := arraySortInPlace sortBy filtered.1 filtered.2
  arraySliceTen sorted.1 sorted.2

/-- Whether the point carries the day-of-week label of the date of `key`: its
`date` is the short weekday, a line break and the month-day label. -/
def CarriesDayLabel (host : DateHost) (key : String) (p : ChartPoint) : Prop :=
  p.date = host.weekdayShort (host.parse key) ++ "\n" ++ host.monthDay (host.parse key)

/-! ## Scenarios -/

/-- The historical payload of the specification's scenario, as a global answer. -/
def twoDayBody : Body :=
  { cases := some [("1/1/24", 10), ("1/2/24", 15)], deaths := some [("1/1/24", 1)],
    recovered := some [], timeline := none }

/-- The summary a successful fetch of the two-day scenario leaves behind. -/
def twoDaySummary : Availability :=
  { lastUpdate := some "Tuesday, January 2, 2024", dataPoints := 2 }

/-- The second point of the series of the two-day scenario. -/
def secondPoint : ChartPoint :=
  { date := "Tue\nJan 2", dateShort := "Jan 2", fullDate := "Tuesday, January 2, 2024",
    cases := 15, deaths := 0, recovered := 0, activeCases := 15 }

/-- A global answer for one day with more recoveries and deaths than cases. -/
def laggingBody : Body :=
  { cases := some [("1/1/24", 5)], deaths := some [("1/1/24", 4)],
    recovered := some [("1/1/24", 3)], timeline := none }

/-- A payload whose three maps have the same keys, the later day listed first. -/
def reversedTimeline : Timeline :=
  { cases := some [("1/2/24", 15), ("1/1/24", 10)],
    deaths := some [("1/2/24", 1), ("1/1/24", 1)],
    recovered := some [("1/2/24", 0), ("1/1/24", 0)] }

/-- The value an entity is ranked by: its counter for the sort key (`0` when
the counter is absent). -/
def Country.rank (sortBy : SortKey) (a : Country) : Int := (a.get sortBy).getD 0

/-- Descending order of the ranked value: `a` may stand before `b`. -/
def rankGE (sortBy : SortKey) (a b : Country) : Prop := b.rank sortBy ≤ a.rank sortBy

instance (sortBy : SortKey) : DecidableRel (rankGE sortBy) := fun a b => by
  unfold rankGE
  infer_instance

/-- The list `sorted` is the stable descending sort of `source`: a rearrangement
of it in descending order of the ranked value, the entities of one value
standing in the order they have in `source`. -/
def SortedStably (sortBy : SortKey) (sorted source : List Country) : Prop :=
  sorted.Perm source ∧ sorted.Pairwise (rankGE sortBy) ∧
    ∀ v : Int, sorted.filter (fun c => c.rank sortBy == v) =
      source.filter (fun c => c.rank sortBy == v)

/-- The active cases of an entity by the formula of the Dashboard,
`cases - (recovered || 0) - deaths`; `none` when `cases` or `deaths` is absent. -/
def Country.derivedActive (a : Country) : Option Int :=
  match a.cases, a.deaths with
  | some c, some d => some (activeCases { cases := c, deaths := d, recovered := a.recovered })
  | _, _ => none

/-- Descending order of the derived active cases. -/
def derivedGE (a b : Country) : Prop :=
  b.derivedActive.getD 0 ≤ a.derivedActive.getD 0

instance : DecidableRel derivedGE := fun a b => by
  unfold derivedGE
  infer_instance

/-- A collection of three entities, two of them with equal `cases`. -/
def threeCountries : List Country :=
  [ { country := "A", cases := some 5, deaths := some 0, recovered := some 0, active := some 5 },
    { country := "B", cases := some 20, deaths := some 0, recovered := some 0, active := some 20 },
    { country := "C", cases := some 20, deaths := some 0, recovered := some 0, active := some 20 } ]

/-- Two entities whose `active` property disagrees with their other counters. -/
def staleActive : List Country :=
  [ { country := "X", cases := some 100, deaths := some 0, recovered := some 0,
      active := some 1 },
    { country := "Y", cases := some 10, deaths := some 0, recovered := some 0,
      active := some 5 } ]

/-- Twelve entities with the cases 1 to 12, all named alike. -/
def twelveCountries : List Country :=
  [1, 2, 3, 4, 5, 6, 7, 8, 9, 10, 11, 12].map fun i =>
    { country := "Land", cases := some i, deaths := some 0, recovered := some 0,
      active := some i }

/-- Fourteen entities: twelve whose name contains `land`, with the cases 1 to
12 in no order, and two more, with far more cases, whose name does not. -/
def fourteenCountries : List Country :=
  [("Iceland", 7), ("Ireland", 3), ("Poland", 11), ("Isle of Man", 900), ("Finland", 5),
   ("Thailand", 12), ("Greenland", 1), ("Swaziland", 2), ("Netherlands", 10),
   ("New Zealand", 4), ("Switzerland", 9), ("Cuba", 800), ("England", 8),
   ("Scotland", 6)].map fun e =>
    { country := e.1, cases := some e.2, deaths := some 0, recovered := some 0,
      active := some e.2 }

/-- Seven entities, two of them (`c0`, `c3`) without the optional counter
`recovered`; four of the others have `recovered = 1`. -/
def sevenCountries : List Country :=
  [("c0", none), ("c1", some 0), ("c2", some 1), ("c3", none), ("c4", some 1),
   ("c5", some 1), ("c6", some 1)].map fun e =>
    { country := e.1, cases := some 10, deaths := some 0, recovered := e.2,
      active := some 10 }

/-- The snapshot answered for `Italy` in the stale-completion scenario. -/
def italySnapshot : Snapshot := { cases := 100, deaths := 5, recovered := some 50 }

/-- The snapshot answered for `Spain` in the stale-completion scenario. -/
def spainSnapshot : Snapshot := { cases := 200, deaths := 7, recovered := some 60 }

/-- A state of `App` holding the snapshot of Spain and the three entities. -/
def loadedApp : AppState :=
  { data := some spainSnapshot, countries := threeCountries, selectedCountry := "Spain",
    loading := false, error := none, requests := [] }

/-- A historical payload with a `cases` map but no `deaths` map. -/
def noDeathsTimeline : Timeline :=
  { cases := some [("1/1/24", 10)], deaths := none, recovered := some [] }

/-- A country answer whose `timeline` is `noDeathsTimeline`. -/
def noDeathsBody : Body :=
  { cases := none, deaths := none, recovered := none, timeline := some noDeathsTimeline }

/-- A historical payload of seven days, as a global answer. -/
def sevenDayBody : Body :=
  { cases := some [("1/1/24", 1), ("1/2/24", 2), ("1/3/24", 3), ("1/4/24", 4),
                   ("1/5/24", 5), ("1/6/24", 6), ("1/7/24", 7)],
    deaths := some [], recovered := some [], timeline := none }

/-- A snapshot without the `recovered` counter. -/
def noRecoveredSnapshot : Snapshot := { cases := 1000, deaths := 50, recovered := none }

/-! # Theorems -/

/-! ## Dashboard.js -/

theorem orZero_eq_getD (r : Option Int) : orZero r = r.getD 0 := by
  cases r with
  | none => rfl
  | some v =>
      by_cases hv : v = 0
      · simp [orZero, hv]
      · simp [orZero, hv]

/-- C1: the Dashboard's `activeCases` is exactly `cases - recovered - deaths`,
an absent `recovered` counting as 0, and it is not clamped: whenever
`recovered + deaths` exceeds `cases` the value is negative. -/
theorem activeCases_exact_unclamped (data : Snapshot) :
    activeCases data = data.cases - data.recovered.getD 0 - data.deaths ∧
    (data.cases < data.recovered.getD 0 + data.deaths → activeCases data < 0) := by
  have h : activeCases data = data.cases - data.recovered.getD 0 - data.deaths := by
    simp [activeCases, orZero_eq_getD]
  refine ⟨h, fun hlt => ?_⟩
  rw [h]
  omega

/-- C1 at the scenario of the specification (150) and at a snapshot with more
recoveries and deaths than cases (negative, not 0). -/
theorem activeCases_exact_unclamped_witness :
    activeCases ⟨1000, 50, some 800⟩ = 150 ∧ activeCases ⟨10, 8, some 5⟩ < 0 :=
  ⟨by decide, (activeCases_exact_unclamped ⟨10, 8, some 5⟩).2 (by decide)⟩

theorem toFixed1_mulInt_divInt_zero (a : Int) :
    ((JSNum.divInt a 0).mulInt 100).toFixed1 =
      some (if a = 0 then "NaN" else if a < 0 then "-Infinity" else "Infinity") := by
  by_cases h0 : a = 0
  · simp [JSNum.divInt, JSNum.mulInt, JSNum.toFixed1, h0]
  · by_cases hneg : a < 0
    · simp [JSNum.divInt, JSNum.mulInt, JSNum.toFixed1, h0, hneg]
    · simp [JSNum.divInt, JSNum.mulInt, JSNum.toFixed1, h0, hneg]

/-- C2 (what the code does): for a snapshot with `cases = 0` the fatality rate
and the active ratio are the strings `NaN`, `Infinity` or `-Infinity`, the
division by zero propagated; neither is ever `0.0`. -/
theorem zero_cases_rates_propagate (data : Snapshot) (h : data.cases = 0) :
    (deathRate data = some "NaN" ∨ deathRate data = some "Infinity" ∨
      deathRate data = some "-Infinity") ∧
    (activeRate data = some "NaN" ∨ activeRate data = some "Infinity" ∨
      activeRate data = some "-Infinity") ∧
    deathRate data ≠ some "0.0" ∧ activeRate data ≠ some "0.0" := by
  have hd : deathRate data =
      some (if data.deaths = 0 then "NaN"
        else if data.deaths < 0 then "-Infinity" else "Infinity") := by
    simp only [deathRate, h]
    exact toFixed1_mulInt_divInt_zero _
  have ha : activeRate data =
      some (if activeCases data = 0 then "NaN"
        else if activeCases data < 0 then "-Infinity" else "Infinity") := by
    simp only [activeRate, h]
    exact toFixed1_mulInt_divInt_zero _
  rw [hd, ha]
  refine ⟨?_, ?_, ?_, ?_⟩ <;> split_ifs <;> simp

/-- C2 at the failing inputs: no cases and no deaths renders `NaN`, no cases
with deaths renders `Infinity` and `-Infinity`. -/
theorem zero_cases_rates_propagate_witness :
    deathRate ⟨0, 0, some 0⟩ = some "NaN" ∧ activeRate ⟨0, 0, some 0⟩ = some "NaN" ∧
    deathRate ⟨0, 3, none⟩ = some "Infinity" ∧ activeRate ⟨0, 3, none⟩ = some "-Infinity" ∧
    deathRate ⟨0, 0, some 0⟩ ≠ some "0.0" :=
  ⟨by decide, by decide, by decide, by decide,
    (zero_cases_rates_propagate ⟨0, 0, some 0⟩ rfl).2.2.1⟩

/-- C3: for a snapshot with `cases = 0` the recovery rate is `0.0`, whatever
`recovered` is. -/
theorem recoveryRate_zero_cases (data : Snapshot) (h : data.cases = 0) :
    recoveryRate data = some "0.0" := by
  simp [recoveryRate, truthy, h]

/-- C3 at a snapshot without cases but with recoveries. -/
theorem recoveryRate_zero_cases_witness : recoveryRate ⟨0, 3, some 7⟩ = some "0.0" :=
  recoveryRate_zero_cases ⟨0, 3, some 7⟩ rfl

/-! ## JavaScript Numbers: rounding error -/

/-- `bitLenAux` with enough fuel brackets `n` between two powers of two. -/
theorem bitLenAux_spec (fuel n : Nat) (h : n ≤ fuel) :
    n < 2 ^ bitLenAux fuel n ∧ (n ≠ 0 → 2 ^ bitLenAux fuel n ≤ 2 * n) := by
  induction fuel generalizing n with
  | zero =>
      have : n = 0 := by omega
      subst this
      simp [bitLenAux]
  | succ f ih =>
      by_cases hn : n = 0
      · subst hn
        simp [bitLenAux]
      · have hhalf : n / 2 ≤ f := by omega
        obtain ⟨h1, h2⟩ := ih (n / 2) hhalf
        simp only [bitLenAux, hn, if_false, pow_succ]
        refine ⟨by omega, fun _ => ?_⟩
        by_cases h0 : n / 2 = 0
        · have hb : bitLenAux f (n / 2) = 0 := by
            rw [h0]
            cases f <;> simp [bitLenAux]
          rw [hb]
          omega
        · have := h2 h0
          omega

/-- `n < 2 ^ bitLen n ≤ 2 * n` for a positive `n`. -/
theorem bitLen_spec (n : Nat) : n < 2 ^ bitLen n ∧ (n ≠ 0 → 2 ^ bitLen n ≤ 2 * n) :=
  bitLenAux_spec n n (le_refl n)

/-- `roundHalfEven n d` is within one half of `n / d`. -/
theorem roundHalfEven_spec (n d : Nat) (hd : 0 < d) :
    2 * (roundHalfEven n d * d) ≤ 2 * n + d ∧ 2 * n ≤ 2 * (roundHalfEven n d * d) + d := by
  have hdiv := Nat.div_add_mod n d
  have hmod := Nat.mod_lt n hd
  have hmul : (n / d + 1) * d = d * (n / d) + d := by ring
  have hmul' : n / d * d = d * (n / d) := by ring
  unfold roundHalfEven
  simp only
  split_ifs <;> simp only [hmul, hmul'] <;> omega

/-- A power of two with an integer exponent as a quotient of two natural powers. -/
theorem two_zpow_eq (d : Int) : (2 : ℚ) ^ d = (2 : ℚ) ^ d.toNat / (2 : ℚ) ^ (-d).toNat := by
  rcases le_total 0 d with h | h
  · have h1 : (-d).toNat = 0 := by omega
    rw [h1, pow_zero, div_one, ← zpow_natCast, Int.toNat_of_nonneg h]
  · have h1 : d.toNat = 0 := by omega
    have h2 : ((-d).toNat : Int) = -d := Int.toNat_of_nonneg (by omega)
    rw [h1, pow_zero, one_div, ← zpow_natCast, h2, zpow_neg, inv_inv]

/-- `2 ^ binExponent a b ≤ a / b < 2 ^ (binExponent a b + 1)`. -/
theorem binExponent_spec (a b : Nat) (ha : 0 < a) (hb : 0 < b) :
    (2 : ℚ) ^ binExponent a b ≤ (a : ℚ) / b ∧ (a : ℚ) / b < (2 : ℚ) ^ (binExponent a b + 1) := by
  obtain ⟨ha1, ha2⟩ := bitLen_spec a
  obtain ⟨hb1, hb2⟩ := bitLen_spec b
  have ha2 := ha2 (by omega)
  have hb2 := hb2 (by omega)
  have qa1 : (a : ℚ) < 2 ^ bitLen a := by exact_mod_cast ha1
  have qa2 : (2 : ℚ) ^ bitLen a ≤ 2 * a := by exact_mod_cast ha2
  have qb1 : (b : ℚ) < 2 ^ bitLen b := by exact_mod_cast hb1
  have qb2 : (2 : ℚ) ^ bitLen b ≤ 2 * b := by exact_mod_cast hb2
  have qa : (0 : ℚ) < a := by exact_mod_cast ha
  have qb : (0 : ℚ) < b := by exact_mod_cast hb
  have pa : (0 : ℚ) < 2 ^ bitLen a := by positivity
  have pb : (0 : ℚ) < 2 ^ bitLen b := by positivity
  set d : Int := (bitLen a : Int) - (bitLen b : Int) with hd
  have hpow : (2 : ℚ) ^ d = 2 ^ bitLen a / 2 ^ bitLen b := by
    rw [hd, zpow_sub₀ (by norm_num), zpow_natCast, zpow_natCast]
  have hlow : (2 : ℚ) ^ (d - 1) ≤ (a : ℚ) / b := by
    rw [zpow_sub₀ (by norm_num), hpow, zpow_one, div_div, div_le_div_iff₀ (by positivity) qb]
    nlinarith
  have hupp : (a : ℚ) / b < (2 : ℚ) ^ (d + 1) := by
    rw [zpow_add₀ (by norm_num), hpow, zpow_one, div_mul_eq_mul_div, div_lt_div_iff₀ qb pb]
    nlinarith
  have htest : b * 2 ^ d.toNat ≤ a * 2 ^ (-d).toNat ↔ (2 : ℚ) ^ d ≤ (a : ℚ) / b := by
    rw [two_zpow_eq d, div_le_div_iff₀ (by positivity) qb]
    constructor
    · intro h
      have : ((b * 2 ^ d.toNat : Nat) : ℚ) ≤ ((a * 2 ^ (-d).toNat : Nat) : ℚ) := by exact_mod_cast h
      push_cast at this
      linarith
    · intro h
      have : ((b * 2 ^ d.toNat : Nat) : ℚ) ≤ ((a * 2 ^ (-d).toNat : Nat) : ℚ) := by
        push_cast
        linarith
      exact_mod_cast this
  unfold binExponent
  simp only [← hd]
  by_cases ht : b * 2 ^ d.toNat ≤ a * 2 ^ (-d).toNat
  · rw [if_pos ht]
    exact ⟨htest.1 ht, hupp⟩
  · rw [if_neg ht]
    refine ⟨hlow, ?_⟩
    have : ¬ (2 : ℚ) ^ d ≤ (a : ℚ) / b := fun h => ht (htest.2 h)
    rw [sub_add_cancel]
    exact not_le.1 this

/-- Rounding in the normal range with a negative exponent: for
`2 ^ (-K) ≤ a / b < 2 ^ 52` the result is `m * 2 ^ (-k)` with a 53-bit
significand `m` within one half of `a / b * 2 ^ k`. -/
theorem roundRat_normal (neg : Bool) (a b K : Nat) (ha : 0 < a) (hb : 0 < b)
    (hK : K ≤ 1000) (hlow : b ≤ a * 2 ^ K) (hhigh : a < b * 2 ^ 52) :
    ∃ m k : Nat, roundRat neg a b = .fin neg m (-(k : Int)) ∧ 1 ≤ k ∧ k ≤ K + 52 ∧
      (2 : ℚ) ^ 52 ≤ (a : ℚ) / b * 2 ^ k ∧ (a : ℚ) / b * 2 ^ k < 2 ^ 53 ∧
      |(m : ℚ) - (a : ℚ) / b * 2 ^ k| ≤ 1 / 2 ∧ 2 ^ 52 ≤ m ∧ m ≤ 2 ^ 53 := by
  obtain ⟨hE1, hE2⟩ := binExponent_spec a b ha hb
  set E := binExponent a b with hEdef
  have qa : (0 : ℚ) < a := by exact_mod_cast ha
  have qb : (0 : ℚ) < b := by exact_mod_cast hb
  have two1 : (1 : ℚ) < 2 := by norm_num
  -- bounds on the exponent
  have hq_hi : (a : ℚ) / b < (2 : ℚ) ^ (52 : Int) := by
    rw [div_lt_iff₀ qb]
    have : ((a : Nat) : ℚ) < ((b * 2 ^ 52 : Nat) : ℚ) := by exact_mod_cast hhigh
    push_cast at this
    have h52 : (2 : ℚ) ^ (52 : Int) = 2 ^ 52 := by norm_num
    rw [h52]
    linarith
  have hq_lo : (2 : ℚ) ^ (-(K : Int)) ≤ (a : ℚ) / b := by
    rw [zpow_neg, zpow_natCast, le_div_iff₀ qb, inv_mul_le_iff₀ (by positivity)]
    have : ((b : Nat) : ℚ) ≤ ((a * 2 ^ K : Nat) : ℚ) := by exact_mod_cast hlow
    push_cast at this
    linarith
  have hE_hi : E < 52 := by
    have := lt_of_le_of_lt hE1 hq_hi
    exact (zpow_lt_zpow_iff_right₀ two1).1 this
  have hE_lo : -(K : Int) < E + 1 := by
    have := lt_of_le_of_lt hq_lo hE2
    exact (zpow_lt_zpow_iff_right₀ two1).1 this
  -- the exponent of the result
  obtain ⟨k, hk⟩ : ∃ k : Nat, (k : Int) = 52 - E := ⟨(52 - E).toNat, Int.toNat_of_nonneg (by omega)⟩
  have he : max (E - 52) (-1074) = -(k : Int) := by
    rw [max_eq_left (by omega)]
    omega
  have hk1 : (-(-(k : Int))).toNat = k := by simp
  have hk0 : (-(k : Int)).toNat = 0 := by omega
  have hpowk : (2 : ℚ) ^ k = 2 ^ (52 : Int) / 2 ^ E := by
    rw [← zpow_natCast, hk, zpow_sub₀ (by norm_num)]
  have h52 : (2 : ℚ) ^ (52 : Int) = 2 ^ 52 := by norm_num
  have pE : (0 : ℚ) < 2 ^ E := by positivity
  have hscaled_lo : (2 : ℚ) ^ 52 ≤ (a : ℚ) / b * 2 ^ k := by
    rw [hpowk, h52, mul_div_assoc', le_div_iff₀ pE]
    nlinarith
  have hscaled_hi : (a : ℚ) / b * 2 ^ k < 2 ^ 53 := by
    rw [hpowk, h52, mul_div_assoc', div_lt_iff₀ pE]
    rw [zpow_add₀ (by norm_num), zpow_one] at hE2
    nlinarith
  -- the significand
  obtain ⟨hm1, hm2⟩ := roundHalfEven_spec (a * 2 ^ k) b hb
  set m := roundHalfEven (a * 2 ^ k) b with hmdef
  have qm1 : 2 * ((m : ℚ) * b) ≤ 2 * (a * 2 ^ k) + b := by exact_mod_cast hm1
  have qm2 : 2 * ((a : ℚ) * 2 ^ k) ≤ 2 * (m * b) + b := by exact_mod_cast hm2
  have hscale : (a : ℚ) / b * 2 ^ k = a * 2 ^ k / b := by ring
  have ht : (a : ℚ) * 2 ^ k / b * b = a * 2 ^ k := div_mul_cancel₀ _ (ne_of_gt qb)
  have hup : (m : ℚ) ≤ (a : ℚ) * 2 ^ k / b + 1 / 2 := by
    refine le_of_mul_le_mul_right ?_ qb
    rw [add_mul, ht]
    linarith
  have hdn : (a : ℚ) * 2 ^ k / b - 1 / 2 ≤ (m : ℚ) := by
    refine le_of_mul_le_mul_right ?_ qb
    rw [sub_mul, ht]
    linarith
  have habs : |(m : ℚ) - (a : ℚ) / b * 2 ^ k| ≤ 1 / 2 := by
    rw [hscale, abs_le]
    constructor <;> linarith
  have hm_hi : m ≤ 2 ^ 53 := by
    have h : (m : ℚ) < 2 ^ 53 + 1 := by
      rw [hscale] at hscaled_hi
      linarith
    have h' : (m : ℚ) < ((2 ^ 53 + 1 : Nat) : ℚ) := by
      norm_num at h ⊢
      linarith
    have := Nat.cast_lt.1 h'
    omega
  have hm_lo : 2 ^ 52 ≤ m := by
    have h : (2 : ℚ) ^ 52 - 1 < m := by
      rw [hscale] at hscaled_lo
      linarith
    have h' : ((2 ^ 52 - 1 : Nat) : ℚ) < (m : ℚ) := by
      norm_num at h ⊢
      linarith
    have := Nat.cast_lt.1 h'
    omega
  have hbl : bitLen m ≤ 54 := by
    have h2 := (bitLen_spec m).2 (by omega)
    have h3 : 2 ^ bitLen m ≤ 2 ^ 54 := by omega
    exact (Nat.pow_le_pow_iff_right (by norm_num)).1 h3
  refine ⟨m, k, ?_, by omega, by omega, hscaled_lo, hscaled_hi, habs, hm_lo, hm_hi⟩
  have ha0 : a ≠ 0 := by omega
  have hov : ¬ (1024 : Int) < (bitLen m : Int) + -(k : Int) := by omega
  simp only [roundRat, ha0, if_false, ← hEdef, he, hk1, hk0, pow_zero, mul_one, ← hmdef, hov]

/-- Relative error of a rounded significand. -/
theorem rel_err (x P m : ℚ) (hP : 0 < P) (h : |m - x * P| ≤ 1 / 2) (s : 2 ^ 52 ≤ x * P) :
    |m / P - x| ≤ x / 2 ^ 53 := by
  have e : m / P - x = (m - x * P) / P := by
    field_simp
    ring
  rw [e, abs_div, abs_of_pos hP, div_le_div_iff₀ hP (by positivity)]
  have h53 : (2 : ℚ) ^ 53 = 2 * 2 ^ 52 := by norm_num
  have hx : 0 ≤ |m - x * P| := abs_nonneg _
  nlinarith

/-- The integer `toFixed(1)` picks is within one half of ten times the value. -/
theorem toFixed_err (m k : Nat) :
    |(((20 * m + 2 ^ k) / (2 * 2 ^ k) : Nat) : ℚ) - 10 * (m : ℚ) / 2 ^ k| ≤ 1 / 2 := by
  have hD : 0 < 2 * 2 ^ k := by positivity
  have h1 := Nat.div_add_mod (20 * m + 2 ^ k) (2 * 2 ^ k)
  have h2 := Nat.mod_lt (20 * m + 2 ^ k) hD
  set n := (20 * m + 2 ^ k) / (2 * 2 ^ k) with hn
  set r := (20 * m + 2 ^ k) % (2 * 2 ^ k) with hr
  have q1 : 2 * (2 : ℚ) ^ k * n + r = 20 * m + 2 ^ k := by exact_mod_cast h1
  have q2 : (r : ℚ) < 2 * 2 ^ k := by exact_mod_cast h2
  have q3 : (0 : ℚ) ≤ r := by positivity
  have hP : (0 : ℚ) < 2 ^ k := by positivity
  have e : (n : ℚ) - 10 * (m : ℚ) / 2 ^ k = (2 ^ k - r) / (2 * 2 ^ k) := by
    rw [eq_div_iff (by positivity), sub_mul, div_mul_eq_mul_div, mul_comm (10 * (m : ℚ)),
      mul_assoc, mul_div_assoc, mul_div_cancel_left₀ _ (ne_of_gt hP)]
    linarith
  rw [e, abs_le]
  constructor
  · rw [le_div_iff₀ (by positivity)]
    linarith
  · rw [div_le_iff₀ (by positivity)]
    linarith

/-- The percentage of a positive count: what `((a / c) * 100).toFixed(1)` renders. -/
theorem percent_pos (a c : Nat) (ha : 0 < a) (ha40 : a < 2 ^ 40) (hc : 0 < c)
    (hc53 : c ≤ 2 ^ 53) :
    ∃ n : Nat, ((JSNum.divInt a c).mulInt 100).toFixed1 = some (renderTenths n) ∧
      |(n : ℚ) / 10 - 100 * (a : ℚ) / c| ≤ 1 / 20 := by
  have qa : (0 : ℚ) < a := by exact_mod_cast ha
  have qc : (0 : ℚ) < c := by exact_mod_cast hc
  have qa40 : (a : ℚ) < 2 ^ 40 := by exact_mod_cast ha40
  have qc1 : (1 : ℚ) ≤ c := by exact_mod_cast hc
  -- the quotient
  obtain ⟨m1, k1, hr1, -, hk1, s1, -, e1, hm1lo, hm1hi⟩ :=
    roundRat_normal false a c 53 ha hc (by norm_num)
      (by nlinarith [Nat.one_le_two_pow (n := 53)]) (by nlinarith)
  have hq_le : (a : ℚ) / c ≤ a := div_le_self qa.le qc1
  have hk1lo : 13 ≤ k1 := by
    have h : (2 : ℚ) ^ 52 < 2 ^ (40 + k1) := by
      rw [pow_add]
      have hP : (0 : ℚ) < 2 ^ k1 := by positivity
      nlinarith
    have := (pow_lt_pow_iff_right₀ (by norm_num : (1 : ℚ) < 2)).1 h
    omega
  have hpk1 : 2 ^ 13 ≤ 2 ^ k1 := Nat.pow_le_pow_right (by norm_num) hk1lo
  have hpk1' : 2 ^ k1 ≤ 2 ^ 105 := Nat.pow_le_pow_right (by norm_num) hk1
  -- the product
  obtain ⟨m2, k2, hr2, -, -, s2, -, e2, -, hm2hi⟩ :=
    roundRat_normal false (m1 * 100) (2 ^ k1) 53 (by omega) (by positivity) (by norm_num)
      (by omega) (by omega)
  -- the rendering
  have hbig : ¬ 10 ^ 21 * 2 ^ k2 ≤ m2 := by
    have : 1 ≤ 2 ^ k2 := Nat.one_le_two_pow
    have h21 : (2 : Nat) ^ 53 < 10 ^ 21 := by norm_num
    intro h
    have : 10 ^ 21 * 1 ≤ 10 ^ 21 * 2 ^ k2 := Nat.mul_le_mul_left _ this
    omega
  refine ⟨(20 * m2 + 2 ^ k2) / (2 * 2 ^ k2), ?_, ?_⟩
  · have hc0 : (c : Int) ≠ 0 := by exact_mod_cast hc.ne'
    have hna : ¬ ((a : Int) < 0) := by omega
    have hnc : ¬ ((c : Int) < 0) := by omega
    have hdiv : JSNum.divInt a c = .fin false m1 (-(k1 : Int)) := by
      simp [JSNum.divInt, hc0, hna, hnc, hr1]
    have hmul : (JSNum.fin false m1 (-(k1 : Int))).mulInt 100 = .fin false m2 (-(k2 : Int)) := by
      have h0 : (-(k1 : Int)).toNat = 0 := by omega
      simp [JSNum.mulInt, h0, hr2]
    have hfix : (JSNum.fin false m2 (-(k2 : Int))).toFixed1 =
        some (renderTenths ((20 * m2 + 2 ^ k2) / (2 * 2 ^ k2))) := by
      have h0 : (-(k2 : Int)).toNat = 0 := by omega
      have h21 : ¬ 1000000000000000000000 * 2 ^ k2 ≤ m2 := by
        norm_num at hbig ⊢
        exact hbig
      simp [JSNum.toFixed1, h0, h21]
    rw [hdiv, hmul, hfix]
  · set n := (20 * m2 + 2 ^ k2) / (2 * 2 ^ k2) with hn
    have e3 := toFixed_err m2 k2
    rw [← hn] at e3
    push_cast at s2 e2
    have hP1 : (0 : ℚ) < 2 ^ k1 := by positivity
    have hP2 : (0 : ℚ) < 2 ^ k2 := by positivity
    have d1 := rel_err ((a : ℚ) / c) (2 ^ k1) m1 hP1 e1 s1
    have d2 := rel_err ((m1 : ℚ) * 100 / 2 ^ k1) (2 ^ k2) m2 hP2 e2 s2
    set q : ℚ := (a : ℚ) / c with hq
    set x1 : ℚ := (m1 : ℚ) / 2 ^ k1 with hx1
    set x2 : ℚ := (m2 : ℚ) / 2 ^ k2 with hx2
    have hqpos : 0 < q := div_pos qa qc
    have hx : (m1 : ℚ) * 100 / 2 ^ k1 = 100 * x1 := by rw [hx1]; ring
    have hy : 10 * (m2 : ℚ) / 2 ^ k2 = 10 * x2 := by rw [hx2]; ring
    rw [hx] at d2
    rw [hy] at e3
    have h53 : (0 : ℚ) < 2 ^ 53 := by positivity
    rw [abs_le] at d1 d2 e3
    have hx1le : x1 ≤ 2 * q := by
      have : q / 2 ^ 53 ≤ q := div_le_self hqpos.le (by norm_num)
      linarith
    have hx1pos : 0 ≤ x1 := by rw [hx1]; positivity
    -- the distance of `n` to the exact value, scaled by `2 * c`
    have hcq : (c : ℚ) * q = a := by rw [hq]; field_simp
    have hqb : q / 2 ^ 53 * (6000 * c) < 1 := by
      rw [div_mul_eq_mul_div, div_lt_one h53]
      have : q * (6000 * c) = 6000 * a := by rw [← hcq]; ring
      rw [this]
      have h40 : a < 1099511627776 := by
        have e40 : (2 : Nat) ^ 40 = 1099511627776 := by norm_num
        omega
      have q40 : (a : ℚ) < 1099511627776 := by exact_mod_cast h40
      norm_num
      linarith
    have hxb : 100 * x1 / 2 ^ 53 ≤ 200 * (q / 2 ^ 53) := by
      rw [div_le_iff₀ h53]
      have : 200 * (q / 2 ^ 53) * 2 ^ 53 = 200 * q := by field_simp
      rw [this]
      linarith
    have hZ : |(2 * (n : ℚ) * c - 2000 * a)| < c + 1 := by
      have e : 2 * (n : ℚ) * c - 2000 * a =
          2 * c * ((n - 10 * x2) + 10 * (x2 - 100 * x1) + 1000 * (x1 - q)) := by
        rw [← hcq]; ring
      rw [e, abs_mul, abs_of_pos (by positivity : (0 : ℚ) < 2 * c)]
      have hin : |(n - 10 * x2) + 10 * (x2 - 100 * x1) + 1000 * (x1 - q)| ≤
          1 / 2 + 3000 * (q / 2 ^ 53) := by
        rw [abs_le]
        constructor <;> linarith
      calc 2 * (c : ℚ) * |(n - 10 * x2) + 10 * (x2 - 100 * x1) + 1000 * (x1 - q)|
          ≤ 2 * c * (1 / 2 + 3000 * (q / 2 ^ 53)) :=
            mul_le_mul_of_nonneg_left hin (by positivity)
        _ = c + q / 2 ^ 53 * (6000 * c) := by ring
        _ < c + 1 := by linarith
    have hZint : |(2 * (n : Int) * c - 2000 * a)| ≤ (c : Int) := by
      have : ((|(2 * (n : Int) * c - 2000 * a)| : Int) : ℚ) < ((c + 1 : Int) : ℚ) := by
        push_cast
        exact hZ
      have := Int.cast_lt.1 this
      omega
    have hZq : |(2 * (n : ℚ) * c - 2000 * a)| ≤ c := by
      have : ((|(2 * (n : Int) * c - 2000 * a)| : Int) : ℚ) ≤ ((c : Int) : ℚ) :=
        Int.cast_le.2 hZint
      push_cast at this
      exact this
    have e : (n : ℚ) / 10 - 100 * (a : ℚ) / c = (2 * (n : ℚ) * c - 2000 * a) / (20 * c) := by
      field_simp
      ring
    rw [e, abs_div, abs_of_pos (by positivity : (0 : ℚ) < 20 * c),
      div_le_div_iff₀ (by positivity) (by norm_num)]
    linarith

/-- A zero count renders `0.0`. -/
theorem percent_zero (c : Int) (hc : c ≠ 0) :
    ((JSNum.divInt 0 c).mulInt 100).toFixed1 = some "0.0" := by
  simp [JSNum.divInt, JSNum.mulInt, JSNum.toFixed1, roundRat, hc]
  decide

/-- `renderTenths n` is a one-decimal rendering of every value within `1/20` of `n / 10`. -/
theorem isOneDecimalOf_renderTenths (n : Nat) (q : ℚ) (h : |(n : ℚ) / 10 - q| ≤ 1 / 20) :
    IsOneDecimalOf (renderTenths n) q := by
  refine ⟨n / 10, n % 10, Nat.mod_lt n (by norm_num), rfl, ?_⟩
  have e : (n : ℚ) = ((10 * (n / 10) + n % 10 : Nat) : ℚ) := by rw [Nat.div_add_mod]
  have e' : ((n / 10 : Nat) : ℚ) + ((n % 10 : Nat) : ℚ) / 10 = (n : ℚ) / 10 := by
    rw [e]
    push_cast
    ring
  rw [e']
  exact h

/-- What `((a / c) * 100).toFixed(1)` renders for counts of realistic size. -/
theorem percent_rendering (a c : Int) (ha : 0 ≤ a) (ha40 : a < 2 ^ 40) (hc : 0 < c)
    (hc53 : c ≤ 2 ^ 53) :
    ∃ s, ((JSNum.divInt a c).mulInt 100).toFixed1 = some s ∧
      IsOneDecimalOf s ((a : ℚ) / c * 100) := by
  obtain ⟨cn, rfl⟩ := Int.eq_ofNat_of_zero_le hc.le
  obtain ⟨an, rfl⟩ := Int.eq_ofNat_of_zero_le ha
  rcases Nat.eq_zero_or_pos an with h0 | hpos
  · subst h0
    refine ⟨"0.0", percent_zero _ (by omega), 0, 0, by norm_num, by decide, ?_⟩
    norm_num
  · obtain ⟨n, hn, herr⟩ := percent_pos an cn hpos (by exact_mod_cast ha40)
      (by exact_mod_cast hc) (by exact_mod_cast hc53)
    refine ⟨renderTenths n, hn, isOneDecimalOf_renderTenths n _ ?_⟩
    have e : ((an : Int) : ℚ) / ((cn : Int) : ℚ) * 100 = 100 * (an : ℚ) / cn := by
      push_cast
      ring
    rw [e]
    exact herr

/-- A value is truthy exactly when `v || 0` is not `0`. -/
theorem truthy_iff (r : Option Int) : truthy r = true ↔ orZero r ≠ 0 := by
  cases r with
  | none => simp [truthy, orZero]
  | some v => by_cases hv : v = 0 <;> simp [truthy, orZero, hv]

/-- C4: for a snapshot with `cases > 0` (counters of realistic size: `cases` at
most `2^53`, `recovered` and `deaths` non-negative and below `2^40`) the recovery
rate is a decimal rendering with exactly one fractional digit of
`recovered / cases * 100`, the nearest multiple of `1/10`, and `0.0` when
`recovered` is 0 or absent; the fatality rate is the same rendering of
`deaths / cases * 100`. -/
theorem rates_one_decimal (data : Snapshot) (hc : 0 < data.cases) (hc53 : data.cases ≤ 2 ^ 53)
    (hr : 0 ≤ data.recovered.getD 0) (hr40 : data.recovered.getD 0 < 2 ^ 40)
    (hd : 0 ≤ data.deaths) (hd40 : data.deaths < 2 ^ 40) :
    (∃ s, recoveryRate data = some s ∧
      IsOneDecimalOf s (((data.recovered.getD 0 : Int) : ℚ) / data.cases * 100)) ∧
    (∃ s, deathRate data = some s ∧
      IsOneDecimalOf s ((data.deaths : ℚ) / data.cases * 100)) ∧
    (data.recovered.getD 0 = 0 → recoveryRate data = some "0.0") := by
  rw [← orZero_eq_getD] at hr hr40 ⊢
  have hct : truthy (some data.cases) = true := by
    rw [truthy_iff]
    simp only [orZero]
    split_ifs <;> omega
  have hzero : orZero data.recovered = 0 → recoveryRate data = some "0.0" := by
    intro h0
    have : truthy data.recovered = false := by
      rw [← Bool.not_eq_true, truthy_iff]
      simpa using h0
    simp [recoveryRate, this]
  refine ⟨?_, percent_rendering _ _ hd hd40 hc hc53, hzero⟩
  by_cases h0 : orZero data.recovered = 0
  · refine ⟨"0.0", hzero h0, 0, 0, by norm_num, by decide, ?_⟩
    rw [h0]
    norm_num
  · have ht : truthy data.recovered = true := (truthy_iff _).2 h0
    simp only [recoveryRate, ht, hct, Bool.and_self, if_true]
    exact percent_rendering _ _ hr hr40 hc hc53

/-- C4 at the scenario of the specification: `80.0` and `5.0`. -/
theorem rates_one_decimal_witness :
    recoveryRate ⟨1000, 50, some 800⟩ = some "80.0" ∧
    deathRate ⟨1000, 50, some 800⟩ = some "5.0" ∧
    ∃ s, deathRate ⟨1000, 50, some 800⟩ = some s ∧
      IsOneDecimalOf s (((50 : Int) : ℚ) / ((1000 : Int) : ℚ) * 100) :=
  ⟨by decide, by decide,
    (rates_one_decimal ⟨1000, 50, some 800⟩ (by decide) (by decide) (by decide) (by decide)
      (by decide) (by decide)).2.1⟩

/-! ## GlobalChart.js -/

theorem lookup_of_mem_nodup (c : JSObj) (hk : (objectKeys c).Nodup) (kv : String × Int)
    (hm : kv ∈ c) : c.lookup kv.1 = some kv.2 := by
  induction c with
  | nil => cases hm
  | cons hd tl ih =>
      obtain ⟨k, v⟩ := hd
      simp only [objectKeys, List.map_cons, List.nodup_cons] at hk
      rcases List.mem_cons.1 hm with rfl | hm
      · simp [List.lookup]
      · have hne : kv.1 ≠ k := by
          intro he
          exact hk.1 (he ▸ List.mem_map_of_mem Prod.fst hm)
        have hb : (kv.1 == k) = false := by simpa using hne
        simp only [List.lookup, hb]
        exact ih hk.2 hm

/-- When the callback never throws on the elements of the list, the map
succeeds and every projection of its result is the projection of the
callback's values. -/
theorem mapWithIndex_total {α β γ : Type} (f : α → Nat → Option β) (proj : β → γ)
    (q : α → γ) (l : List α)
    (hf : ∀ a ∈ l, ∀ i, ∃ b, f a i = some b ∧ proj b = q a) (i : Nat) :
    ∃ bs, mapWithIndex f i l = some bs ∧ bs.map proj = l.map q := by
  induction l generalizing i with
  | nil => exact ⟨[], rfl, rfl⟩
  | cons a as ih =>
      obtain ⟨b, hb, hp⟩ := hf a (List.mem_cons_self a as) i
      obtain ⟨bs, hbs, hm⟩ := ih (fun x hx => hf x (List.mem_cons_of_mem a hx)) (i + 1)
      exact ⟨b :: bs, by simp [mapWithIndex, hb, hbs], by simp [hp, hm]⟩

/-- Every element of a successful map is a value of the callback. -/
theorem mapWithIndex_mem {α β : Type} (f : α → Nat → Option β) (l : List α) (i : Nat)
    (bs : List β) (h : mapWithIndex f i l = some bs) (b : β) (hb : b ∈ bs) :
    ∃ a ∈ l, ∃ j, f a j = some b := by
  induction l generalizing i bs with
  | nil =>
      simp only [mapWithIndex, Option.some.injEq] at h
      subst h
      cases hb
  | cons a as ih =>
      simp only [mapWithIndex] at h
      cases hfa : f a i with
      | none => simp [hfa] at h
      | some b0 =>
          cases hrest : mapWithIndex f (i + 1) as with
          | none => simp [hfa, hrest] at h
          | some bs0 =>
              simp only [hfa, hrest, Option.some.injEq] at h
              subst h
              rcases List.mem_cons.1 hb with rfl | hb
              · exact ⟨a, List.mem_cons_self a as, i, hfa⟩
              · obtain ⟨x, hx, j, hj⟩ := ih (i + 1) bs0 hrest hb
                exact ⟨x, List.mem_cons_of_mem a hx, j, hj⟩

/-- With the `deaths` and `recovered` maps present the callback does not throw,
and its point carries the three looked-up counters. -/
theorem formatPoint_present (host : DateHost) (h : Timeline) (cases d r : JSObj)
    (hd : h.deaths = some d) (hr : h.recovered = some r) (date : String) (index length : Nat) :
    ∃ p, formatPoint host h cases date index length = some p ∧
      p.cases = (cases.lookup date).getD 0 ∧ p.deaths = (d.lookup date).getD 0 ∧
      p.recovered = (r.lookup date).getD 0 ∧
      p.dateShort = host.monthDay (host.parse date) ∧
      p.fullDate = host.fullDate (host.parse date) := by
  simp [formatPoint, readEntry, hd, hr, orZero_eq_getD]

/-- The state after normalizing a payload with a non-empty `cases` map and
both other maps present: the formatted series is published. -/
theorem normalize_present (host : DateHost) (s : ChartState) (h : Timeline) (c d r : JSObj)
    (hc : h.cases = some c) (hne : c ≠ []) (hd : h.deaths = some d)
    (hr : h.recovered = some r) :
    ∃ pts, formattedData host h c = some pts ∧
      (normalize host s (some h)).chartData = pts ∧
      (normalize host s (some h)).dataAvailability =
        { lastUpdate := pts.getLast?.map (·.fullDate), dataPoints := pts.length } := by
  obtain ⟨pts, hpts, -⟩ := mapWithIndex_total
    (fun date index => formatPoint host h c date index (objectKeys c).length)
    (fun _ => ()) (fun _ => ()) (objectKeys c)
    (fun a _ i => by
      obtain ⟨p, hp, -⟩ := formatPoint_present host h c d r hd hr a i (objectKeys c).length
      exact ⟨p, hp, rfl⟩) 0
  have hlen : (objectKeys c).length ≠ 0 := by
    simpa [objectKeys] using hne
  refine ⟨pts, hpts, ?_, ?_⟩ <;>
    simp [normalize, hc, hlen, formattedData, hpts]

/-- C5: for a payload with a non-empty `cases` map (and the `deaths` and
`recovered` maps present) the normalizer publishes exactly one point per entry
of the `cases` map, in the order of that map, and the point of the entry
`(key, value)` carries `cases = value`, `deaths = deaths[key]` and
`recovered = recovered[key]`, an entry missing there counting as 0. -/
theorem normalize_one_point_per_key (host : DateHost) (s : ChartState) (h : Timeline)
    (c d r : JSObj) (hc : h.cases = some c) (hne : c ≠ []) (hd : h.deaths = some d)
    (hr : h.recovered = some r) (hk : (objectKeys c).Nodup) :
    (normalize host s (some h)).chartData.map (fun p => (p.cases, p.deaths, p.recovered)) =
      c.map (fun kv => (kv.2, (d.lookup kv.1).getD 0, (r.lookup kv.1).getD 0)) := by
  obtain ⟨pts, hpts, hchart, -⟩ := normalize_present host s h c d r hc hne hd hr
  obtain ⟨bs, hbs, hmap⟩ := mapWithIndex_total
    (fun date index => formatPoint host h c date index (objectKeys c).length)
    (fun p => (p.cases, p.deaths, p.recovered))
    (fun k => ((c.lookup k).getD 0, (d.lookup k).getD 0, (r.lookup k).getD 0)) (objectKeys c)
    (fun a _ i => by
      obtain ⟨p, hp, h1, h2, h3, -⟩ :=
        formatPoint_present host h c d r hd hr a i (objectKeys c).length
      exact ⟨p, hp, by simp only [h1, h2, h3]⟩) 0
  have hsame : bs = pts := by
    have := hbs.symm.trans hpts
    simpa [formattedData] using this
  rw [hchart, ← hsame, hmap, objectKeys, List.map_map]
  apply List.map_congr_left
  intro kv hkv
  simp [lookup_of_mem_nodup c hk kv hkv]

/-- C5 at the scenario of the specification: the points `(10, 1, 0)` and `(15, 0, 0)`. -/
theorem normalize_one_point_per_key_witness :
    (normalize enUS ChartState.initial
        (some { cases := some [("1/1/24", 10), ("1/2/24", 15)],
                deaths := some [("1/1/24", 1)], recovered := some [] })).chartData.map
      (fun p => (p.cases, p.deaths, p.recovered)) = [(10, 1, 0), (15, 0, 0)] :=
  normalize_one_point_per_key enUS ChartState.initial _
    [("1/1/24", 10), ("1/2/24", 15)] [("1/1/24", 1)] [] rfl (by decide) rfl rfl (by decide)

theorem formatPoint_activeCases (host : DateHost) (h : Timeline) (cases : JSObj)
    (date : String) (index length : Nat) (p : ChartPoint)
    (hp : formatPoint host h cases date index length = some p) :
    p.activeCases = p.cases - p.recovered - p.deaths := by
  unfold formatPoint at hp
  cases hd : readEntry h.deaths date with
  | none => simp [hd] at hp
  | some dv =>
      cases hr : readEntry h.recovered date with
      | none => simp [hd, hr] at hp
      | some rv =>
          simp only [hd, hr, Option.some.injEq] at hp
          subst hp
          rfl

/-- The series a fetch publishes is empty or the formatted data of a payload. -/
theorem fetch_chartData_cases (host : DateHost) (selectedCountry : String) (s : ChartState)
    (response : Response) :
    (fetchHistoricalData host selectedCountry s response).chartData = [] ∨
    ∃ h c, formattedData host h c =
      some (fetchHistoricalData host selectedCountry s response).chartData := by
  cases response with
  | rejected => exact Or.inl rfl
  | resolved data =>
      simp only [fetchHistoricalData]
      cases historicalDataOf selectedCountry data with
      | none => exact Or.inl rfl
      | some hd =>
          cases hd with
          | none => exact Or.inl rfl
          | some h =>
              simp only [normalize]
              cases hc : h.cases with
              | none => exact Or.inl rfl
              | some c =>
                  by_cases hl : (objectKeys c).length = 0
                  · simp [hl]
                  · cases hf : formattedData host h c with
                    | none => simp [hl, hf, fetchFailed]
                    | some pts => exact Or.inr ⟨h, c, by simp [hl, hf]⟩

/-- C6: every point of every series a fetch publishes has
`activeCases = cases - recovered - deaths` of that same point; nothing clamps
it, so a point with `recovered + deaths > cases` has a negative `activeCases`. -/
theorem chartPoint_activeCases (host : DateHost) (selectedCountry : String) (s : ChartState)
    (response : Response) (p : ChartPoint)
    (hp : p ∈ (fetchHistoricalData host selectedCountry s response).chartData) :
    p.activeCases = p.cases - p.recovered - p.deaths ∧
    (p.cases < p.recovered + p.deaths → p.activeCases < 0) := by
  have key : p.activeCases = p.cases - p.recovered - p.deaths := by
    rcases fetch_chartData_cases host selectedCountry s response with h0 | ⟨h, c, hf⟩
    · rw [h0] at hp
      cases hp
    · obtain ⟨a, -, j, hj⟩ := mapWithIndex_mem _ _ _ _ hf p hp
      exact formatPoint_activeCases host h c a j _ p hj
  exact ⟨key, fun hlt => by rw [key]; omega⟩

/-- C6 at the scenario of the specification, whose points get `activeCases`
9 and 15, and at a day with more recoveries and deaths than cases, whose point
gets `5 - 3 - 4 = -2`. -/
theorem chartPoint_activeCases_witness :
    secondPoint ∈
      (fetchHistoricalData enUS "Global" ChartState.initial (.resolved (some twoDayBody))).chartData ∧
    secondPoint.activeCases = secondPoint.cases - secondPoint.recovered - secondPoint.deaths ∧
    (fetchHistoricalData enUS "Global" ChartState.initial
      (.resolved (some twoDayBody))).chartData.map (·.activeCases) = [9, 15] ∧
    (fetchHistoricalData enUS "Global" ChartState.initial
      (.resolved (some laggingBody))).chartData.map (·.activeCases) = [-2] :=
  ⟨by decide,
   (chartPoint_activeCases enUS "Global" ChartState.initial (.resolved (some twoDayBody))
      secondPoint (by decide)).1,
   by decide, by decide⟩

/-- C7: when the request resolves and the historical payload is missing, has no
`cases` map or has an empty one, the fetch publishes the empty series and
completes through the `console.warn` branch alone: the `catch` block does not
run, and the chart leaves its loading state. -/
theorem fetch_empty_payload (host : DateHost) (selectedCountry : String) (s : ChartState)
    (data : Option Body) (historicalData : Option Timeline)
    (hh : historicalDataOf selectedCountry data = some historicalData)
    (he : historicalData = none ∨
      ∃ h, historicalData = some h ∧ (h.cases = none ∨ h.cases = some [])) :
    (fetchHistoricalData host selectedCountry s (.resolved data)).chartData = [] ∧
    (fetchHistoricalData host selectedCountry s (.resolved data)).console =
      s.console ++ [ConsoleCall.warnNoData] ∧
    (fetchHistoricalData host selectedCountry s (.resolved data)).loading = false := by
  simp only [fetchHistoricalData, hh]
  rcases he with rfl | ⟨h, rfl, hc | hc⟩
  · simp [normalize]
  · simp [normalize, hc]
  · simp [normalize, hc, objectKeys]

/-- C7 at a country whose answer has no `timeline`, and at a global answer
whose `cases` map is empty. -/
theorem fetch_empty_payload_witness :
    (fetchHistoricalData enUS "Italy" ChartState.initial
      (.resolved (some { cases := none, deaths := none, recovered := none,
                         timeline := none }))).chartData = [] ∧
    (fetchHistoricalData enUS "Global" ChartState.initial
      (.resolved (some { cases := some [], deaths := some [], recovered := some [],
                         timeline := none }))).console = [ConsoleCall.warnNoData] :=
  ⟨(fetch_empty_payload enUS "Italy" ChartState.initial _ none (by decide) (Or.inl rfl)).1,
   (fetch_empty_payload enUS "Global" ChartState.initial _
      (some { cases := some [], deaths := some [], recovered := some [] })
      (by decide) (Or.inr ⟨_, rfl, Or.inr rfl⟩)).2.1⟩

/-- C8 (what the code does): the branch for an empty `cases` map never writes
`dataAvailability`, so the summary of the earlier fetch survives. -/
theorem fetch_empty_keeps_summary (host : DateHost) (s : ChartState) (d r : Option JSObj) :
    (normalize host s (some { cases := some [], deaths := d, recovered := r })).dataAvailability
      = s.dataAvailability ∧
    (normalize host s (some { cases := some [], deaths := d, recovered := r })).chartData = [] := by
  simp [normalize, objectKeys]

/-- C8 at the failing input: a fetch of two days followed by a fetch whose
`cases` map is empty ends with an empty series and the summary of the two days,
not `{ lastUpdate: null, dataPoints: 0 }`. -/
theorem fetch_empty_keeps_summary_witness :
    (fetchHistoricalData enUS "Global"
      (fetchHistoricalData enUS "Global" ChartState.initial (.resolved (some twoDayBody)))
      (.resolved (some { cases := some [], deaths := some [], recovered := some [],
                         timeline := none }))).dataAvailability = twoDaySummary ∧
    twoDaySummary ≠ { lastUpdate := none, dataPoints := 0 } := by
  decide

theorem calDate_not_before_self (a : CalDate) : a.before a = false := by
  simp [CalDate.before]

theorem jsDate_not_before_self (a : JSDate) : JSDate.before a a = false := by
  cases a with
  | none => rfl
  | some d => exact calDate_not_before_self d

/-- C9 (amended): for a payload with a non-empty `cases` map and the other two
maps present, the points render, in order, the dates of the keys of the
`cases` map; so when those keys are listed in strictly increasing date order
the dates of the series are strictly increasing and no date occurs twice. -/
theorem series_dates_follow_keys (host : DateHost) (s : ChartState) (h : Timeline)
    (c d r : JSObj) (hc : h.cases = some c) (hne : c ≠ []) (hd : h.deaths = some d)
    (hr : h.recovered = some r)
    (hord : StrictlyIncreasing ((objectKeys c).map host.parse)) :
    ∃ ds, RendersDates host (normalize host s (some h)).chartData ds ∧
      ds = (objectKeys c).map host.parse ∧ StrictlyIncreasing ds ∧ ds.Nodup := by
  refine ⟨(objectKeys c).map host.parse, ?_, rfl, hord, ?_⟩
  · obtain ⟨pts, hpts, hchart, -⟩ := normalize_present host s h c d r hc hne hd hr
    obtain ⟨bs, hbs, hmap⟩ := mapWithIndex_total
      (fun date index => formatPoint host h c date index (objectKeys c).length)
      (fun p => (p.dateShort, p.fullDate))
      (fun k => (host.monthDay (host.parse k), host.fullDate (host.parse k))) (objectKeys c)
      (fun a _ i => by
        obtain ⟨p, hp, -, -, -, h4, h5⟩ :=
          formatPoint_present host h c d r hd hr a i (objectKeys c).length
        exact ⟨p, hp, by simp only [h4, h5]⟩) 0
    have hsame : bs = pts := by
      have := hbs.symm.trans hpts
      simpa [formattedData] using this
    rw [RendersDates, hchart, ← hsame, hmap, List.map_map]
    rfl
  · refine List.Pairwise.imp ?_ hord
    intro a b hab heq
    subst heq
    rw [jsDate_not_before_self] at hab
    cases hab

/-- C9 (amended) at the scenario of the specification, whose keys are in date order. -/
theorem series_dates_follow_keys_witness :
    ∃ ds, RendersDates enUS
        (normalize enUS ChartState.initial
          (some { cases := twoDayBody.cases, deaths := twoDayBody.deaths,
                  recovered := twoDayBody.recovered })).chartData ds ∧
      ds = [some ⟨2024, 1, 1⟩, some ⟨2024, 1, 2⟩] ∧ StrictlyIncreasing ds ∧ ds.Nodup :=
  series_dates_follow_keys enUS ChartState.initial _ [("1/1/24", 10), ("1/2/24", 15)]
    [("1/1/24", 1)] [] rfl (by decide) rfl rfl (by decide)

/-- C9 (as stated) fails: the three maps of `reversedTimeline` have the same
keys, and the series renders 2 January 2024 before 1 January 2024. -/
theorem series_dates_not_increasing :
    reversedTimeline.deaths.map objectKeys = reversedTimeline.cases.map objectKeys ∧
    reversedTimeline.recovered.map objectKeys = reversedTimeline.cases.map objectKeys ∧
    (normalize enUS ChartState.initial (some reversedTimeline)).chartData.map (·.fullDate) =
      ["Tuesday, January 2, 2024", "Monday, January 1, 2024"] ∧
    RendersDates enUS (normalize enUS ChartState.initial (some reversedTimeline)).chartData
      [some ⟨2024, 1, 2⟩, some ⟨2024, 1, 1⟩] ∧
    ¬ StrictlyIncreasing [some ⟨2024, 1, 2⟩, some ⟨2024, 1, 1⟩] := by
  refine ⟨by decide, by decide, by decide, ?_, by decide⟩
  unfold RendersDates
  decide

/-! ## CountryStats.js -/

theorem sortsBefore_iff_rankGE (sortBy : SortKey) (a b : Country)
    (ha : (a.get sortBy).isSome) (hb : (b.get sortBy).isSome) :
    sortsBefore sortBy a b ↔ rankGE sortBy a b := by
  obtain ⟨va, hva⟩ := Option.isSome_iff_exists.1 ha
  obtain ⟨vb, hvb⟩ := Option.isSome_iff_exists.1 hb
  simp only [sortsBefore, compareFn, rankGE, Country.rank, hva, hvb, Option.getD_some]
  omega

theorem orderedInsert_congr {α : Type} (r r' : α → α → Prop) [DecidableRel r]
    [DecidableRel r'] (a : α) (l : List α) (h : ∀ b ∈ l, r a b ↔ r' a b) :
    l.orderedInsert r a = l.orderedInsert r' a := by
  induction l with
  | nil => rfl
  | cons b t ih =>
      have hb : r a b ↔ r' a b := h b (List.mem_cons_self b t)
      have ht := ih (fun x hx => h x (List.mem_cons_of_mem b hx))
      by_cases hr : r a b
      · simp [List.orderedInsert, hr, hb.1 hr]
      · have hr' : ¬ r' a b := fun h' => hr (hb.2 h')
        simp [List.orderedInsert, hr, hr', ht]

theorem insertionSort_congr {α : Type} (r r' : α → α → Prop) [DecidableRel r]
    [DecidableRel r'] (l : List α) (h : ∀ a ∈ l, ∀ b ∈ l, r a b ↔ r' a b) :
    l.insertionSort r = l.insertionSort r' := by
  induction l with
  | nil => rfl
  | cons a t ih =>
      have ht := ih (fun x hx y hy =>
        h x (List.mem_cons_of_mem a hx) y (List.mem_cons_of_mem a hy))
      simp only [List.insertionSort, ht]
      apply orderedInsert_congr
      intro b hb
      exact h a (List.mem_cons_self a t) b
        (List.mem_cons_of_mem a ((List.mem_insertionSort r').1 hb))

/-- On a list whose entities all carry the sort key, the comparator sorts into
descending order of that key. -/
theorem arraySort_sorted (sortBy : SortKey) (l : List Country)
    (hnum : ∀ a ∈ l, (a.get sortBy).isSome) :
    (arraySort sortBy l).Pairwise (rankGE sortBy) := by
  have hcongr : arraySort sortBy l = l.insertionSort (rankGE sortBy) :=
    insertionSort_congr _ _ l
      (fun a ha b hb => sortsBefore_iff_rankGE sortBy a b (hnum a ha) (hnum b hb))
  haveI : IsTotal Country (rankGE sortBy) := ⟨fun a b => le_total _ _⟩
  haveI : IsTrans Country (rankGE sortBy) := ⟨fun a b c hab hbc => le_trans hbc hab⟩
  rw [hcongr]
  exact List.sorted_insertionSort (rankGE sortBy) l

/-- C10: when every entity carries a numeric value for the sort key, the
ranking is the first 10 elements of a rearrangement, in descending order of
the key, of the entities whose lower-cased name contains the lower-cased
search term; so the ranking itself is in non-increasing key order, and no
matching entity beyond the tenth has a key strictly greater than an entity of
the ranking. -/
theorem filteredCountries_top10 (toLowerCase : String → String) (countries : List Country)
    (searchTerm : String) (sortBy : SortKey)
    (hnum : ∀ a ∈ countries, (a.get sortBy).isSome) :
    ∃ sorted : List Country,
      sorted.Perm (countries.filter fun c =>
        decide ((toLowerCase searchTerm).data <:+: (toLowerCase c.country).data)) ∧
      sorted.Pairwise (rankGE sortBy) ∧
      filteredCountries toLowerCase countries searchTerm sortBy = sorted.take 10 ∧
      (filteredCountries toLowerCase countries searchTerm sortBy).Pairwise (rankGE sortBy) ∧
      ∀ x ∈ sorted.drop 10, ∀ y ∈ filteredCountries toLowerCase countries searchTerm sortBy,
        x.rank sortBy ≤ y.rank sortBy := by
  have hm : ∀ a ∈ matching toLowerCase countries searchTerm, (a.get sortBy).isSome :=
    fun a ha => hnum a (List.mem_filter.1 ha).1
  have hs := arraySort_sorted sortBy (matching toLowerCase countries searchTerm) hm
  refine ⟨arraySort sortBy (matching toLowerCase countries searchTerm),
    List.perm_insertionSort _ _, hs, rfl, hs.sublist (List.take_sublist _ _), ?_⟩
  intro x hx y hy
  exact List.Sorted.rel_of_mem_take_of_mem_drop hs hy hx

/-- C10 at fourteen entities and the search term `LAND`, ranked by `cases`: the
two entities without `land` in their name are left out although they have the
most cases, and of the twelve others the ten with the most cases are kept, in
descending order. -/
theorem filteredCountries_top10_witness :
    (filteredCountries asciiLowerCase fourteenCountries "LAND" SortKey.cases).map
        (fun c => (c.country, c.cases)) =
      [("Thailand", some 12), ("Poland", some 11), ("Netherlands", some 10),
       ("Switzerland", some 9), ("England", some 8), ("Iceland", some 7),
       ("Scotland", some 6), ("Finland", some 5), ("New Zealand", some 4),
       ("Ireland", some 3)] ∧
    ((fourteenCountries.filter fun c =>
        decide ((asciiLowerCase "LAND").data <:+: (asciiLowerCase c.country).data)).map
        (·.country)) =
      ["Iceland", "Ireland", "Poland", "Finland", "Thailand", "Greenland", "Swaziland",
       "Netherlands", "New Zealand", "Switzerland", "England", "Scotland"] ∧
    ∃ sorted : List Country,
      sorted.Perm (fourteenCountries.filter fun c =>
        decide ((asciiLowerCase "LAND").data <:+: (asciiLowerCase c.country).data)) ∧
      sorted.Pairwise (rankGE SortKey.cases) ∧
      filteredCountries asciiLowerCase fourteenCountries "LAND" SortKey.cases =
        sorted.take 10 ∧
      (filteredCountries asciiLowerCase fourteenCountries "LAND" SortKey.cases).Pairwise
        (rankGE SortKey.cases) ∧
      ∀ x ∈ sorted.drop 10,
        ∀ y ∈ filteredCountries asciiLowerCase fourteenCountries "LAND" SortKey.cases,
          x.rank SortKey.cases ≤ y.rank SortKey.cases :=
  ⟨by decide, by decide,
   filteredCountries_top10 asciiLowerCase fourteenCountries "LAND" SortKey.cases (by decide)⟩

/-- C11: the ranking has `min(10, matchCount)` entries, `matchCount` being the
number of entities whose lower-cased name contains the lower-cased search term. -/
theorem ranking_length (toLowerCase : String → String) (countries : List Country)
    (searchTerm : String) (sortBy : SortKey) :
    (filteredCountries toLowerCase countries searchTerm sortBy).length =
      min 10 (countries.countP (nameMatches toLowerCase searchTerm)) := by
  simp only [filteredCountries, arraySort, List.length_take, List.length_insertionSort,
    matching, List.countP_eq_length_filter]

/-- C11 at twelve matching entities (10 entries) and at three (3 entries). -/
theorem ranking_length_witness :
    (filteredCountries asciiLowerCase twelveCountries "land" SortKey.cases).length = 10 ∧
    (filteredCountries asciiLowerCase threeCountries "" SortKey.cases).length = 3 ∧
    (filteredCountries asciiLowerCase threeCountries "b" SortKey.cases).length = 1 :=
  ⟨by rw [ranking_length]; decide, by rw [ranking_length]; decide,
   by rw [ranking_length]; decide⟩

/-- C12: every entry of the ranking is an element of the collection whose
lower-cased name contains the lower-cased search term; and with the empty
search term (which lower-cases to itself) every entity matches. -/
theorem ranking_entries_match (toLowerCase : String → String) (countries : List Country)
    (searchTerm : String) (sortBy : SortKey) :
    (∀ x ∈ filteredCountries toLowerCase countries searchTerm sortBy,
      x ∈ countries ∧ (toLowerCase searchTerm).data <:+: (toLowerCase x.country).data) ∧
    (toLowerCase "" = "" → matching toLowerCase countries "" = countries) := by
  constructor
  · intro x hx
    have h1 : x ∈ arraySort sortBy (matching toLowerCase countries searchTerm) :=
      List.mem_of_mem_take hx
    have h2 : x ∈ matching toLowerCase countries searchTerm :=
      (List.mem_insertionSort _).1 h1
    obtain ⟨h3, h4⟩ := List.mem_filter.1 h2
    exact ⟨h3, of_decide_eq_true h4⟩
  · intro h0
    simp only [matching]
    rw [List.filter_eq_self]
    intro a _
    simp only [nameMatches, includes, h0]
    exact decide_eq_true List.nil_infix

/-- C12 at the three entities: the search term `B` keeps the entity `B` alone,
the empty search term keeps all three. -/
theorem ranking_entries_match_witness :
    (filteredCountries asciiLowerCase threeCountries "B" SortKey.cases).map (·.country) = ["B"] ∧
    matching asciiLowerCase threeCountries "" = threeCountries :=
  ⟨by decide,
   (ranking_entries_match asciiLowerCase threeCountries "" SortKey.cases).2 (by decide)⟩

/-- Entities with equal values of the sort key may stay in their order. -/
theorem sortsBefore_of_eq (sortBy : SortKey) (a b : Country)
    (h : a.get sortBy = b.get sortBy) : sortsBefore sortBy a b := by
  unfold sortsBefore compareFn
  rw [h]
  cases b.get sortBy <;> simp

/-- The entities with one value of the sort key stand in the sorted list in the
order in which they stand in the list that was sorted. -/
theorem arraySort_filter_key (sortBy : SortKey) (l : List Country) (v : Option Int) :
    (arraySort sortBy l).filter (fun c => c.get sortBy == v) =
      l.filter (fun c => c.get sortBy == v) := by
  set p : Country → Bool := fun c => c.get sortBy == v with hp
  have hpair : (l.filter p).Pairwise (sortsBefore sortBy) := by
    apply List.pairwise_of_forall_mem_list
    intro a ha b hb
    have h1 : a.get sortBy = v := by simpa [hp] using (List.mem_filter.1 ha).2
    have h2 : b.get sortBy = v := by simpa [hp] using (List.mem_filter.1 hb).2
    exact sortsBefore_of_eq sortBy a b (h1.trans h2.symm)
  have hsub : (l.filter p).Sublist (arraySort sortBy l) :=
    List.sublist_insertionSort hpair (List.filter_sublist l)
  have hsub' : (l.filter p).Sublist ((arraySort sortBy l).filter p) := by
    have h := hsub.filter p
    have hself : (l.filter p).filter p = l.filter p :=
      List.filter_eq_self.2 (fun a ha => (List.mem_filter.1 ha).2)
    rwa [hself] at h
  have hlen : (l.filter p).length = ((arraySort sortBy l).filter p).length :=
    ((List.perm_insertionSort (sortsBefore sortBy) l).filter p).length_eq.symm
  exact (hsub'.eq_of_length hlen).symm

/-- Between two entities that carry the sort key, the engine's test is the
strict comparison of the ranked values. -/
theorem comesBefore_iff (sortBy : SortKey) (x y : Country)
    (hx : (x.get sortBy).isSome) (hy : (y.get sortBy).isSome) :
    comesBefore sortBy x y = true ↔ y.rank sortBy < x.rank sortBy := by
  obtain ⟨vx, hvx⟩ := Option.isSome_iff_exists.1 hx
  obtain ⟨vy, hvy⟩ := Option.isSome_iff_exists.1 hy
  simp only [comesBefore, compareFn, Country.rank, hvx, hvy, Option.getD_some,
    decide_eq_true_eq]
  omega

/-- The binary search keeps its bracket: in a sorted part whose entities carry
the sort key, everything left of the position found ranks at least as high as
the pivot and everything from that position on ranks strictly lower. -/
theorem bisect_spec (sortBy : SortKey) (x : Country) (P : List Country)
    (hx : (x.get sortBy).isSome) (hP : ∀ y ∈ P, (y.get sortBy).isSome)
    (hs : P.Pairwise (rankGE sortBy)) :
    ∀ (fuel left right : Nat), right - left ≤ fuel → left ≤ right → right ≤ P.length →
      (∀ (i : Nat) (y : Country), P[i]? = some y → i < left →
        x.rank sortBy ≤ y.rank sortBy) →
      (∀ (i : Nat) (y : Country), P[i]? = some y → right ≤ i →
        y.rank sortBy < x.rank sortBy) →
      (∀ (i : Nat) (y : Country), P[i]? = some y →
        i < bisect (comesBefore sortBy) x P fuel left right →
        x.rank sortBy ≤ y.rank sortBy) ∧
      (∀ (i : Nat) (y : Country), P[i]? = some y →
        bisect (comesBefore sortBy) x P fuel left right ≤ i →
        y.rank sortBy < x.rank sortBy) := by
  have hsi : ∀ (i j : Nat) (yi yj : Country), P[i]? = some yi → P[j]? = some yj → i < j →
      yj.rank sortBy ≤ yi.rank sortBy := by
    intro i j yi yj hi hj hij
    obtain ⟨hi1, hi2⟩ := List.getElem?_eq_some.1 hi
    obtain ⟨hj1, hj2⟩ := List.getElem?_eq_some.1 hj
    have := List.pairwise_iff_getElem.1 hs i j hi1 hj1 hij
    rw [hi2, hj2] at this
    exact this
  intro fuel
  induction fuel with
  | zero =>
    intro left right hfuel hlr _ hL hR
    have : left = right := by omega
    subst this
    simp only [bisect]
    exact ⟨hL, hR⟩
  | succ fuel ih =>
    intro left right hfuel hlr hlen hL hR
    by_cases hlt : left < right
    · have hmid : left + (right - left) / 2 < P.length := by omega
      have hget : P[left + (right - left) / 2]? = some P[left + (right - left) / 2] :=
        List.getElem?_eq_getElem hmid
      have hmem : P[left + (right - left) / 2] ∈ P := List.getElem_mem hmid
      by_cases hb : comesBefore sortBy x P[left + (right - left) / 2] = true
      · have hk := (comesBefore_iff sortBy x _ hx (hP _ hmem)).1 hb
        have hrec := ih left (left + (right - left) / 2) (by omega) (by omega) (by omega) hL
          (by
            intro i y hy hi
            rcases Nat.eq_or_lt_of_le hi with h | h
            · rw [← h, hget] at hy
              cases hy
              exact hk
            · exact lt_of_le_of_lt (hsi _ _ _ _ hget hy h) hk)
        simpa only [bisect, hlt, if_true, hget, hb] using hrec
      · have hk : x.rank sortBy ≤ (P[left + (right - left) / 2]).rank sortBy := by
          have := (comesBefore_iff sortBy x _ hx (hP _ hmem)).not.1 hb
          omega
        have hrec := ih (left + (right - left) / 2 + 1) right (by omega) (by omega) hlen
          (by
            intro i y hy hi
            rcases Nat.eq_or_lt_of_le (Nat.lt_succ_iff.1 hi) with h | h
            · rw [h, hget] at hy
              cases hy
              exact hk
            · exact le_trans hk (hsi _ _ _ _ hy hget h))
          hR
        simpa only [bisect, hlt, if_true, hget, hb] using hrec
    · have : left = right := by omega
      subst this
      simp only [bisect, hlt, if_false]
      exact ⟨hL, hR⟩

/-- Binary insertion of an entity into the stable sort of `pre` gives the
stable sort of `pre ++ [x]`. -/
theorem binaryInsert_spec (sortBy : SortKey) (P pre : List Country) (x : Country)
    (hx : (x.get sortBy).isSome) (hP : ∀ y ∈ P, (y.get sortBy).isSome)
    (h : SortedStably sortBy P pre) :
    SortedStably sortBy (binaryInsert (comesBefore sortBy) P x) (pre ++ [x]) := by
  obtain ⟨hperm, hs, hf⟩ := h
  obtain ⟨hL, hR⟩ := bisect_spec sortBy x P hx hP hs P.length 0 P.length (by omega)
    (by omega) (le_refl _) (by intro i y _ hi; omega)
    (by
      intro i y hy hi
      rw [List.getElem?_eq_none hi] at hy
      cases hy)
  unfold binaryInsert
  set pos := bisect (comesBefore sortBy) x P P.length 0 P.length with hpos
  have htake : ∀ y ∈ P.take pos, x.rank sortBy ≤ y.rank sortBy := by
    intro y hy
    obtain ⟨i, hm, hiy⟩ := List.mem_take_iff_getElem.1 hy
    have hm1 : i < pos := lt_of_lt_of_le hm (min_le_left _ _)
    have hm2 : i < P.length := lt_of_lt_of_le hm (min_le_right _ _)
    exact hL i y (by rw [List.getElem?_eq_getElem hm2, hiy]) hm1
  have hdrop : ∀ y ∈ P.drop pos, y.rank sortBy < x.rank sortBy := by
    intro y hy
    obtain ⟨i, hm, hiy⟩ := List.mem_drop_iff_getElem.1 hy
    have hm2 : pos + i < P.length := by omega
    exact hR (pos + i) y (by rw [List.getElem?_eq_getElem hm2, hiy]) (by omega)
  have hsplit : P.take pos ++ P.drop pos = P := List.take_append_drop pos P
  have hs' := hs
  rw [← hsplit, List.pairwise_append] at hs'
  obtain ⟨hs1, hs2, hs3⟩ := hs'
  refine ⟨?_, ?_, ?_⟩
  · have h1 : (P.take pos ++ x :: P.drop pos).Perm (x :: (P.take pos ++ P.drop pos)) :=
      List.perm_middle
    rw [hsplit] at h1
    exact h1.trans ((hperm.cons x).trans (List.perm_append_singleton x pre).symm)
  · rw [List.pairwise_append]
    refine ⟨hs1, List.pairwise_cons.2 ⟨fun y hy => le_of_lt (hdrop y hy), hs2⟩, ?_⟩
    intro a ha b hb
    rcases List.mem_cons.1 hb with hbx | hbd
    · subst hbx
      exact htake a ha
    · exact hs3 a ha b hbd
  · intro v
    have hfP := hf v
    rw [← hsplit, List.filter_append] at hfP
    rw [List.filter_append, List.filter_append, ← hfP]
    by_cases hv : x.rank sortBy = v
    · have hnil : (P.drop pos).filter (fun c => c.rank sortBy == v) = [] := by
        rw [List.filter_eq_nil_iff]
        intro y hy
        have := hdrop y hy
        simp only [beq_iff_eq]
        omega
      simp [List.filter_cons, hv, hnil]
    · simp [List.filter_cons, hv]

/-- The second phase of the engine's sort extends a stable sort by the
remaining elements. -/
theorem foldl_binaryInsert_spec (sortBy : SortKey) :
    ∀ (rest P pre : List Country), (∀ y ∈ rest, (y.get sortBy).isSome) →
      (∀ y ∈ P, (y.get sortBy).isSome) → SortedStably sortBy P pre →
      SortedStably sortBy (rest.foldl (binaryInsert (comesBefore sortBy)) P) (pre ++ rest) := by
  intro rest
  induction rest with
  | nil =>
    intro P pre _ _ h
    simpa using h
  | cons x rest ih =>
    intro P pre hrest hP h
    have hx := hrest x (List.mem_cons_self _ _)
    have hstep := binaryInsert_spec sortBy P pre x hx hP h
    have hP' : ∀ y ∈ binaryInsert (comesBefore sortBy) P x, (y.get sortBy).isSome := by
      intro y hy
      have hy' := (hstep.1.mem_iff).1 hy
      rcases List.mem_append.1 hy' with h1 | h1
      · exact hP y ((h.1.mem_iff).2 h1)
      · rw [List.mem_singleton.1 h1]
        exact hx
    have := ih (binaryInsert (comesBefore sortBy) P x) (pre ++ [x])
      (fun y hy => hrest y (List.mem_cons_of_mem _ hy)) hP' hstep
    simpa [List.foldl_cons, List.append_assoc] using this

/-- The elements counted by `runTail` form a run: strictly ascending ranked
values in a descending run, non-increasing ones otherwise. -/
theorem runTail_chain (sortBy : SortKey) (descending : Bool) :
    ∀ (rest : List Country) (previous : Country),
      (∀ c ∈ previous :: rest, (c.get sortBy).isSome) →
      List.Chain' (fun a b => decide (a.rank sortBy < b.rank sortBy) = descending)
        ((previous :: rest).take
          (runTail (comesBefore sortBy) descending previous rest + 1)) := by
  intro rest
  induction rest with
  | nil =>
    intro previous _
    simp [runTail]
  | cons current rest ih =>
    intro previous hk
    have hp := hk previous (List.mem_cons_self _ _)
    have hc := hk current (List.mem_cons_of_mem _ (List.mem_cons_self _ _))
    have hbool : comesBefore sortBy current previous =
        decide (previous.rank sortBy < current.rank sortBy) := by
      rw [Bool.eq_iff_iff, comesBefore_iff sortBy current previous hc hp]
      simp
    by_cases hcont : comesBefore sortBy current previous = descending
    · have hrec := ih current (fun c hc' => hk c (List.mem_cons_of_mem _ hc'))
      simp only [runTail, hcont, if_true, List.take_succ_cons] at hrec ⊢
      rw [List.chain'_cons']
      refine ⟨?_, hrec⟩
      intro y hy
      simp only [List.head?_cons, Option.mem_def, Option.some.injEq] at hy
      subst hy
      rw [← hbool]
      exact hcont
    · simp [runTail, hcont]

/-- In a list of strictly increasing ranked values at most one entity has a
given value, so reversing it keeps the order among entities of one value. -/
theorem reverse_filter_of_increasing (sortBy : SortKey) (l : List Country) (v : Int)
    (h : l.Pairwise (fun a b => a.rank sortBy < b.rank sortBy)) :
    l.reverse.filter (fun c => c.rank sortBy == v) = l.filter (fun c => c.rank sortBy == v) := by
  rw [List.filter_reverse]
  have hp := h.filter (fun c => c.rank sortBy == v)
  have hall : ∀ c ∈ l.filter (fun c => c.rank sortBy == v), c.rank sortBy = v := by
    intro c hc
    simpa using (List.mem_filter.1 hc).2
  generalize l.filter (fun c => c.rank sortBy == v) = m at hp hall
  match m, hp, hall with
  | [], _, _ => rfl
  | [_], _, _ => rfl
  | a :: b :: t, hp, hall =>
    have h1 := hall a (by simp)
    have h2 := hall b (by simp)
    have h3 := (List.pairwise_cons.1 hp).1 b (by simp)
    omega

/-- The first phase of the engine's sort yields the stable sort of the run it
cuts off. -/
theorem makeRun_spec (sortBy : SortKey) (l : List Country)
    (hnum : ∀ a ∈ l, (a.get sortBy).isSome) :
    ∃ pre : List Country, l = pre ++ (makeRun (comesBefore sortBy) l).2 ∧
      SortedStably sortBy (makeRun (comesBefore sortBy) l).1 pre := by
  match l, hnum with
  | [], _ => exact ⟨[], rfl, List.Perm.refl _, List.Pairwise.nil, fun _ => rfl⟩
  | [a], _ => exact ⟨[a], rfl, List.Perm.refl _, List.pairwise_singleton _ _, fun _ => rfl⟩
  | first :: second :: rest, hnum =>
    have hf := hnum first (by simp)
    have hsnd := hnum second (by simp)
    have hbool : comesBefore sortBy second first =
        decide (first.rank sortBy < second.rank sortBy) := by
      rw [Bool.eq_iff_iff, comesBefore_iff sortBy second first hsnd hf]
      simp
    have hchain := runTail_chain sortBy (comesBefore sortBy second first) rest second
      (fun c hc => hnum c (List.mem_cons_of_mem _ hc))
    have hchain2 : List.Chain'
        (fun a b => decide (a.rank sortBy < b.rank sortBy) = comesBefore sortBy second first)
        ((first :: second :: rest).take
          (runTail (comesBefore sortBy) (comesBefore sortBy second first) second rest + 2)) := by
      rw [List.take_succ_cons, List.chain'_cons']
      refine ⟨?_, hchain⟩
      intro y hy
      simp only [List.take_succ_cons, List.head?_cons, Option.mem_def,
        Option.some.injEq] at hy
      subst hy
      exact hbool.symm
    refine ⟨(first :: second :: rest).take
      (runTail (comesBefore sortBy) (comesBefore sortBy second first) second rest + 2), ?_, ?_⟩
    · simp only [makeRun]
      exact (List.take_append_drop _ _).symm
    · simp only [makeRun]
      by_cases hd : comesBefore sortBy second first = true
      · rw [hd] at hchain2 ⊢
        simp only [decide_eq_true_eq] at hchain2
        haveI : IsTrans Country (fun a b => a.rank sortBy < b.rank sortBy) :=
          ⟨fun a b c h1 h2 => lt_trans h1 h2⟩
        have hpw := List.chain'_iff_pairwise.1 hchain2
        simp only [if_true]
        refine ⟨List.reverse_perm _, ?_, fun v => reverse_filter_of_increasing sortBy _ v hpw⟩
        rw [List.pairwise_reverse]
        exact hpw.imp (fun h => le_of_lt h)
      · have hd' : comesBefore sortBy second first = false := by simpa using hd
        rw [hd'] at hchain2 ⊢
        simp only [decide_eq_false_iff_not, not_lt] at hchain2
        haveI : IsTrans Country (fun a b => b.rank sortBy ≤ a.rank sortBy) :=
          ⟨fun a b c h1 h2 => le_trans h2 h1⟩
        have hpw := List.chain'_iff_pairwise.1 hchain2
        simp only [Bool.false_eq_true, if_false]
        exact ⟨List.Perm.refl _, hpw, fun _ => rfl⟩

/-- Two lists in descending order that hold, for every ranked value, the same
entities in the same order are equal. -/
theorem eq_of_sortedStably (sortBy : SortKey) :
    ∀ (S1 S2 : List Country), S1.Pairwise (rankGE sortBy) → S2.Pairwise (rankGE sortBy) →
      (∀ v : Int, S1.filter (fun c => c.rank sortBy == v) =
        S2.filter (fun c => c.rank sortBy == v)) → S1 = S2 := by
  intro S1
  induction S1 with
  | nil =>
    intro S2 _ _ hf
    cases S2 with
    | nil => rfl
    | cons b t =>
      have := hf (b.rank sortBy)
      simp [List.filter_cons] at this
  | cons a t1 ih =>
    intro S2 h1 h2 hf
    cases S2 with
    | nil =>
      have := hf (a.rank sortBy)
      simp [List.filter_cons] at this
    | cons b t2 =>
      have ha : a ∈ b :: t2 := by
        have : a ∈ (b :: t2).filter (fun c => c.rank sortBy == a.rank sortBy) := by
          rw [← hf]
          simp [List.filter_cons]
        exact (List.mem_filter.1 this).1
      have hb : b ∈ a :: t1 := by
        have : b ∈ (a :: t1).filter (fun c => c.rank sortBy == b.rank sortBy) := by
          rw [hf]
          simp [List.filter_cons]
        exact (List.mem_filter.1 this).1
      have hba : a.rank sortBy ≤ b.rank sortBy := by
        rcases List.mem_cons.1 ha with h | h
        · rw [h]
        · exact (List.pairwise_cons.1 h2).1 a h
      have hab : b.rank sortBy ≤ a.rank sortBy := by
        rcases List.mem_cons.1 hb with h | h
        · rw [h]
        · exact (List.pairwise_cons.1 h1).1 b h
      have hkey : b.rank sortBy = a.rank sortBy := le_antisymm hab hba
      have hhead := hf (a.rank sortBy)
      simp only [List.filter_cons, hkey, beq_self_eq_true, if_true, List.cons.injEq] at hhead
      obtain ⟨hab', htail⟩ := hhead
      subst hab'
      congr 1
      apply ih t2 (List.pairwise_cons.1 h1).2 (List.pairwise_cons.1 h2).2
      intro v
      by_cases hv : a.rank sortBy = v
      · rw [← hv]
        exact htail
      · have := hf v
        simpa [List.filter_cons, hv] using this

/-- When every entity carries the sort key, the engine's procedure yields the
stable descending sort. -/
theorem engineSort_eq_arraySort (sortBy : SortKey) (l : List Country)
    (hnum : ∀ a ∈ l, (a.get sortBy).isSome) :
    engineSort (comesBefore sortBy) l = arraySort sortBy l := by
  obtain ⟨pre, hl, hrun⟩ := makeRun_spec sortBy l hnum
  have hrest : ∀ y ∈ (makeRun (comesBefore sortBy) l).2, (y.get sortBy).isSome := by
    intro y hy
    apply hnum
    rw [hl]
    exact List.mem_append_right _ hy
  have hpre : ∀ y ∈ (makeRun (comesBefore sortBy) l).1, (y.get sortBy).isSome := by
    intro y hy
    apply hnum
    rw [hl]
    exact List.mem_append_left _ ((hrun.1.mem_iff).1 hy)
  have h := foldl_binaryInsert_spec sortBy _ _ pre hrest hpre hrun
  rw [← hl] at h
  obtain ⟨_, hs, hf⟩ := h
  apply eq_of_sortedStably sortBy _ _ hs (arraySort_sorted sortBy l hnum)
  intro v
  rw [hf v]
  have hperm : (arraySort sortBy l).Perm l := List.perm_insertionSort _ l
  have hcongr : ∀ m : List Country, (∀ c ∈ m, (c.get sortBy).isSome) →
      m.filter (fun c => c.rank sortBy == v) = m.filter (fun c => c.get sortBy == some v) := by
    intro m hm
    apply List.filter_congr
    intro c hc
    obtain ⟨w, hw⟩ := Option.isSome_iff_exists.1 (hm c hc)
    simp [Country.rank, hw]
  rw [hcongr l hnum, hcongr (arraySort sortBy l) (fun c hc => hnum c ((hperm.mem_iff).1 hc))]
  exact (arraySort_filter_key sortBy l (some v)).symm

/-- Binary insertion adds the pivot and keeps the others, whatever the
comparator answers. -/
theorem binaryInsert_perm (before : Country → Country → Bool) (sorted : List Country)
    (pivot : Country) : (binaryInsert before sorted pivot).Perm (pivot :: sorted) := by
  unfold binaryInsert
  have h : (sorted.take (bisect before pivot sorted sorted.length 0 sorted.length) ++
      pivot :: sorted.drop (bisect before pivot sorted sorted.length 0 sorted.length)).Perm
      (pivot :: (sorted.take (bisect before pivot sorted sorted.length 0 sorted.length) ++
        sorted.drop (bisect before pivot sorted sorted.length 0 sorted.length))) :=
    List.perm_middle
  rwa [List.take_append_drop] at h

/-- The second phase rearranges the sorted part and the remaining elements. -/
theorem foldl_binaryInsert_perm (before : Country → Country → Bool) :
    ∀ (rest sorted : List Country),
      (rest.foldl (binaryInsert before) sorted).Perm (sorted ++ rest) := by
  intro rest
  induction rest with
  | nil => intro sorted; simp
  | cons x rest ih =>
    intro sorted
    rw [List.foldl_cons]
    refine (ih _).trans ?_
    have h1 : (binaryInsert before sorted x ++ rest).Perm ((x :: sorted) ++ rest) :=
      (binaryInsert_perm before sorted x).append_right rest
    exact h1.trans (List.perm_middle.symm)

/-- The run and the elements after it make up the array. -/
theorem makeRun_perm (before : Country → Country → Bool) (l : List Country) :
    ((makeRun before l).1 ++ (makeRun before l).2).Perm l := by
  match l with
  | [] => simp [makeRun]
  | [a] => simp [makeRun]
  | first :: second :: rest =>
    simp only [makeRun]
    split
    · exact ((List.reverse_perm _).append_right _).trans
        (List.take_append_drop _ _ ▸ List.Perm.refl _)
    · exact List.take_append_drop _ _ ▸ List.Perm.refl _

/-- Whatever the comparator answers, the engine's sort rearranges the array. -/
theorem engineSort_perm (before : Country → Country → Bool) (l : List Country) :
    (engineSort before l).Perm l :=
  (foldl_binaryInsert_perm before _ _).trans (makeRun_perm before l)

/-- C13 (amended): when every entity whose name matches the search term carries
a numeric value for the sort key, the sort is stable.  For every value of the
sort key, the entries of the ranking with that value are, in order, the first
matching entities with that value; two matching entities with equal values
that stand one before the other in the filtered list stand in that order in
the sorted list; and the engine's procedure gives the ranking of
`filteredCountries`. -/
theorem ranking_stable (toLowerCase : String → String) (countries : List Country)
    (searchTerm : String) (sortBy : SortKey)
    (hnum : ∀ a ∈ countries,
      (toLowerCase searchTerm).data <:+: (toLowerCase a.country).data →
        (a.get sortBy).isSome) :
    (∀ v : Int,
      (filteredCountriesOnEngine toLowerCase countries searchTerm sortBy).filter
          (fun c => c.get sortBy == some v) <+:
        (matching toLowerCase countries searchTerm).filter
          (fun c => c.get sortBy == some v)) ∧
    (∀ a b : Country, a.get sortBy = b.get sortBy →
      [a, b].Sublist (matching toLowerCase countries searchTerm) →
      [a, b].Sublist
        (engineSort (comesBefore sortBy) (matching toLowerCase countries searchTerm))) ∧
    filteredCountriesOnEngine toLowerCase countries searchTerm sortBy =
      filteredCountries toLowerCase countries searchTerm sortBy := by
  have hm : ∀ a ∈ matching toLowerCase countries searchTerm, (a.get sortBy).isSome := by
    intro a ha
    have h := List.mem_filter.1 ha
    exact hnum a h.1 (by simpa [nameMatches, includes] using h.2)
  have heq := engineSort_eq_arraySort sortBy (matching toLowerCase countries searchTerm) hm
  refine ⟨?_, ?_, ?_⟩
  · intro v
    unfold filteredCountriesOnEngine
    rw [heq, ← arraySort_filter_key sortBy (matching toLowerCase countries searchTerm) (some v)]
    exact List.IsPrefix.filter _ (List.take_prefix 10 _)
  · intro a b hab hsub
    rw [heq]
    exact List.pair_sublist_insertionSort (sortsBefore_of_eq sortBy a b hab) hsub
  · unfold filteredCountriesOnEngine filteredCountries
    rw [heq]

/-- C13 (amended) at the scenario of the specification: `[A 5, B 20, C 20]`
ranked by `cases` is `[B, C, A]`, `B` before `C` as in the input. -/
theorem ranking_stable_witness :
    (filteredCountriesOnEngine asciiLowerCase threeCountries "" SortKey.cases).map
        (·.country) = ["B", "C", "A"] ∧
    ((filteredCountriesOnEngine asciiLowerCase threeCountries "" SortKey.cases).filter
        (fun c => c.get SortKey.cases == some 20)).map (·.country) = ["B", "C"] ∧
    (filteredCountriesOnEngine asciiLowerCase threeCountries "" SortKey.cases).filter
        (fun c => c.get SortKey.cases == some 20) <+:
      (matching asciiLowerCase threeCountries "").filter
        (fun c => c.get SortKey.cases == some 20) ∧
    filteredCountriesOnEngine asciiLowerCase threeCountries "" SortKey.cases =
      filteredCountries asciiLowerCase threeCountries "" SortKey.cases :=
  ⟨by decide, by decide,
   (ranking_stable asciiLowerCase threeCountries "" SortKey.cases (by decide)).1 20,
   (ranking_stable asciiLowerCase threeCountries "" SortKey.cases (by decide)).2.2⟩

/-- C13 (as stated) fails when a sort key is absent: of seven entities ranked by
`recovered`, `c0` and `c3` lacking that counter, `c5` and `c6` both have
`recovered = 1` and `c5` stands before `c6` in the filtered list, yet the
ranking has `c6` before `c5`. -/
theorem ranking_not_stable_absent_key :
    (filteredCountriesOnEngine asciiLowerCase sevenCountries "" SortKey.recovered).map
        (·.country) = ["c0", "c2", "c4", "c6", "c1", "c3", "c5"] ∧
    (matching asciiLowerCase sevenCountries "").map (fun c => (c.country, c.recovered)) =
      [("c0", none), ("c1", some 0), ("c2", some 1), ("c3", none), ("c4", some 1),
       ("c5", some 1), ("c6", some 1)] ∧
    (∃ a b : Country, a.country = "c5" ∧ b.country = "c6" ∧
      a.get SortKey.recovered = some 1 ∧ b.get SortKey.recovered = some 1 ∧
      [a, b].Sublist (matching asciiLowerCase sevenCountries "") ∧
      [b, a].Sublist
        (filteredCountriesOnEngine asciiLowerCase sevenCountries "" SortKey.recovered) ∧
      ¬ [a, b].Sublist
        (filteredCountriesOnEngine asciiLowerCase sevenCountries "" SortKey.recovered)) ∧
    ¬ ((filteredCountriesOnEngine asciiLowerCase sevenCountries "" SortKey.recovered).filter
          (fun c => c.get SortKey.recovered == some 1) <+:
        (matching asciiLowerCase sevenCountries "").filter
          (fun c => c.get SortKey.recovered == some 1)) :=
  ⟨by decide, by decide,
   ⟨{ country := "c5", cases := some 10, deaths := some 0, recovered := some 1,
      active := some 10 },
    { country := "c6", cases := some 10, deaths := some 0, recovered := some 1,
      active := some 10 },
    by decide⟩,
   by decide⟩

/-- C14 (amended): with the sort key `active` the ranking is in descending
order of each entity's own `active` property; it is in descending order of
`cases - recovered - deaths` for every collection whose entities carry that
value as their `active` property. -/
theorem ranking_by_active_property (toLowerCase : String → String) (countries : List Country)
    (searchTerm : String) (hnum : ∀ a ∈ countries, a.active.isSome) :
    (filteredCountries toLowerCase countries searchTerm SortKey.active).Pairwise
      (fun a b => b.active.getD 0 ≤ a.active.getD 0) ∧
    ((∀ a ∈ countries, a.active = a.derivedActive) →
      (filteredCountries toLowerCase countries searchTerm SortKey.active).Pairwise derivedGE) := by
  have hm : ∀ a ∈ matching toLowerCase countries searchTerm, (a.get SortKey.active).isSome :=
    fun a ha => hnum a (List.mem_filter.1 ha).1
  have hs : (filteredCountries toLowerCase countries searchTerm SortKey.active).Pairwise
      (rankGE SortKey.active) :=
    (arraySort_sorted SortKey.active _ hm).sublist (List.take_sublist _ _)
  refine ⟨hs, fun hder => ?_⟩
  have hmem : ∀ x ∈ filteredCountries toLowerCase countries searchTerm SortKey.active,
      x ∈ countries := fun x hx =>
    (List.mem_filter.1 ((List.mem_insertionSort _).1 (List.mem_of_mem_take hx))).1
  refine List.Pairwise.imp_of_mem ?_ hs
  intro a b ha hb hab
  have h1 := hder a (hmem a ha)
  have h2 := hder b (hmem b hb)
  simp only [rankGE, Country.rank, Country.get] at hab
  simp only [derivedGE, ← h1, ← h2]
  exact hab

/-- C14 (amended) at the three entities, whose `active` property is
`cases - recovered - deaths`. -/
theorem ranking_by_active_property_witness :
    (filteredCountries asciiLowerCase threeCountries "" SortKey.active).map (·.country) =
      ["B", "C", "A"] ∧
    (filteredCountries asciiLowerCase threeCountries "" SortKey.active).Pairwise derivedGE :=
  ⟨by decide,
   (ranking_by_active_property asciiLowerCase threeCountries "" (by decide)).2 (by decide)⟩

/-- C14 (as stated) fails: `X` has 100 active cases by the formula and `Y` has
10, yet the ranking by `active` puts `Y` first, for their `active` properties
are 1 and 5. -/
theorem ranking_not_by_derived_active :
    (filteredCountries asciiLowerCase staleActive "" SortKey.active).map (·.country) =
      ["Y", "X"] ∧
    (filteredCountries asciiLowerCase staleActive "" SortKey.active).map
      Country.derivedActive = [some 10, some 100] ∧
    ¬ (filteredCountries asciiLowerCase staleActive "" SortKey.active).Pairwise derivedGE := by
  decide

/-! ## CountryStats.js: `formatNumber` -/

/-- The quotient of two positive counts: what `(a / c).toFixed(1)` renders. -/
theorem quotient_pos (a c : Nat) (ha : 0 < a) (ha48 : a < 2 ^ 48) (hc : 0 < c)
    (hc53 : c ≤ 2 ^ 53) :
    ∃ n : Nat, (JSNum.divInt a c).toFixed1 = some (renderTenths n) ∧
      |(n : ℚ) / 10 - (a : ℚ) / c| ≤ 1 / 20 := by
  have qa : (0 : ℚ) < a := by exact_mod_cast ha
  have qc : (0 : ℚ) < c := by exact_mod_cast hc
  obtain ⟨m1, k1, hr1, -, -, s1, -, e1, -, hm1hi⟩ :=
    roundRat_normal false a c 53 ha hc (by norm_num)
      (by nlinarith [Nat.one_le_two_pow (n := 53)]) (by nlinarith)
  have hbig : ¬ 1000000000000000000000 * 2 ^ k1 ≤ m1 := by
    have h1 : 1 ≤ 2 ^ k1 := Nat.one_le_two_pow
    have h21 : (2 : Nat) ^ 53 < 1000000000000000000000 := by norm_num
    intro h
    have : 1000000000000000000000 * 1 ≤ 1000000000000000000000 * 2 ^ k1 :=
      Nat.mul_le_mul_left _ h1
    omega
  refine ⟨(20 * m1 + 2 ^ k1) / (2 * 2 ^ k1), ?_, ?_⟩
  · have hc0 : (c : Int) ≠ 0 := by exact_mod_cast hc.ne'
    have hna : ¬ ((a : Int) < 0) := by omega
    have hnc : ¬ ((c : Int) < 0) := by omega
    have hdiv : JSNum.divInt a c = .fin false m1 (-(k1 : Int)) := by
      simp [JSNum.divInt, hc0, hna, hnc, hr1]
    have h0 : (-(k1 : Int)).toNat = 0 := by omega
    rw [hdiv]
    simp [JSNum.toFixed1, h0, hbig]
  · set n := (20 * m1 + 2 ^ k1) / (2 * 2 ^ k1) with hn
    have e3 := toFixed_err m1 k1
    rw [← hn] at e3
    have hP1 : (0 : ℚ) < 2 ^ k1 := by positivity
    have d1 := rel_err ((a : ℚ) / c) (2 ^ k1) m1 hP1 e1 s1
    set q : ℚ := (a : ℚ) / c with hq
    set x1 : ℚ := (m1 : ℚ) / 2 ^ k1 with hx1
    have hqpos : 0 < q := div_pos qa qc
    have hy : 10 * (m1 : ℚ) / 2 ^ k1 = 10 * x1 := by rw [hx1]; ring
    rw [hy] at e3
    have h53 : (0 : ℚ) < 2 ^ 53 := by positivity
    rw [abs_le] at d1 e3
    have hcq : (c : ℚ) * q = a := by rw [hq]; field_simp
    have hqb : q / 2 ^ 53 * (20 * c) < 1 := by
      rw [div_mul_eq_mul_div, div_lt_one h53]
      have : q * (20 * c) = 20 * a := by rw [← hcq]; ring
      rw [this]
      have h48 : a < 281474976710656 := by
        have e48 : (2 : Nat) ^ 48 = 281474976710656 := by norm_num
        omega
      have q48 : (a : ℚ) < 281474976710656 := by exact_mod_cast h48
      norm_num
      linarith
    have hZ : |(2 * (n : ℚ) * c - 20 * a)| < c + 1 := by
      have e : 2 * (n : ℚ) * c - 20 * a = 2 * c * ((n - 10 * x1) + 10 * (x1 - q)) := by
        rw [← hcq]; ring
      rw [e, abs_mul, abs_of_pos (by positivity : (0 : ℚ) < 2 * c)]
      have hin : |(n - 10 * x1) + 10 * (x1 - q)| ≤ 1 / 2 + 10 * (q / 2 ^ 53) := by
        rw [abs_le]
        constructor <;> linarith
      calc 2 * (c : ℚ) * |(n - 10 * x1) + 10 * (x1 - q)|
          ≤ 2 * c * (1 / 2 + 10 * (q / 2 ^ 53)) :=
            mul_le_mul_of_nonneg_left hin (by positivity)
        _ = c + q / 2 ^ 53 * (20 * c) := by ring
        _ < c + 1 := by linarith
    have hZint : |(2 * (n : Int) * c - 20 * a)| ≤ (c : Int) := by
      have : ((|(2 * (n : Int) * c - 20 * a)| : Int) : ℚ) < ((c + 1 : Int) : ℚ) := by
        push_cast
        exact hZ
      have := Int.cast_lt.1 this
      omega
    have hZq : |(2 * (n : ℚ) * c - 20 * a)| ≤ c := by
      have : ((|(2 * (n : Int) * c - 20 * a)| : Int) : ℚ) ≤ ((c : Int) : ℚ) :=
        Int.cast_le.2 hZint
      push_cast at this
      exact this
    have e : (n : ℚ) / 10 - (a : ℚ) / c = (2 * (n : ℚ) * c - 20 * a) / (20 * c) := by
      field_simp
      ring
    rw [e, abs_div, abs_of_pos (by positivity : (0 : ℚ) < 20 * c),
      div_le_div_iff₀ (by positivity) (by norm_num)]
    linarith

/-- What `(a / c).toFixed(1)` renders for a count `a` and a positive divisor `c`. -/
theorem quotient_rendering (a c : Int) (ha : 0 ≤ a) (ha48 : a < 2 ^ 48) (hc : 0 < c)
    (hc53 : c ≤ 2 ^ 53) :
    ∃ s, (JSNum.divInt a c).toFixed1 = some s ∧ IsOneDecimalOf s ((a : ℚ) / c) := by
  obtain ⟨cn, rfl⟩ := Int.eq_ofNat_of_zero_le hc.le
  obtain ⟨an, rfl⟩ := Int.eq_ofNat_of_zero_le ha
  rcases Nat.eq_zero_or_pos an with h0 | hpos
  · subst h0
    have hc0 : (cn : Int) ≠ 0 := by omega
    refine ⟨"0.0", ?_, 0, 0, by norm_num, by decide, by norm_num⟩
    simp [JSNum.divInt, JSNum.toFixed1, roundRat, hc0]
    decide
  · obtain ⟨n, hn, herr⟩ := quotient_pos an cn hpos (by exact_mod_cast ha48)
      (by exact_mod_cast hc) (by exact_mod_cast hc53)
    refine ⟨renderTenths n, hn, isOneDecimalOf_renderTenths n _ ?_⟩
    push_cast
    exact herr

/-- C15 (amended): `formatNumber` selects the rendering by the value of `n`
itself, not by its absolute value.  From 1,000,000 on the result is
`n / 1000000` with one decimal and the suffix `M`; from 1000 to below
1,000,000 it is `n / 1000` with one decimal and the suffix `K`; below 1000,
which includes every negative `n`, it is the locale rendering of `n` without
abbreviation (the Number `0` should that rendering be empty). -/
theorem formatNumber_by_value (toLocaleString : Int → String) (n : Int) (h48 : n < 2 ^ 48) :
    (1000000 ≤ n → ∃ s, formatNumber toLocaleString (some n) = some (.text (s ++ "M")) ∧
      IsOneDecimalOf s ((n : ℚ) / 1000000)) ∧
    (1000 ≤ n → n < 1000000 →
      ∃ s, formatNumber toLocaleString (some n) = some (.text (s ++ "K")) ∧
        IsOneDecimalOf s ((n : ℚ) / 1000)) ∧
    (n < 1000 → formatNumber toLocaleString (some n) =
      if toLocaleString n = "" then some .zero else some (.text (toLocaleString n))) := by
  refine ⟨fun hM => ?_, fun hK hlt => ?_, fun hlt => ?_⟩
  · obtain ⟨s, hs, hdec⟩ := quotient_rendering n 1000000 (by omega) h48 (by norm_num)
      (by norm_num)
    refine ⟨s, ?_, by simpa using hdec⟩
    simp [formatNumber, hM, hs]
  · obtain ⟨s, hs, hdec⟩ := quotient_rendering n 1000 (by omega) h48 (by norm_num)
      (by norm_num)
    have hnM : ¬ (1000000 ≤ n) := by omega
    refine ⟨s, ?_, by simpa using hdec⟩
    simp [formatNumber, hnM, hK, hs]
  · have hnM : ¬ (1000000 ≤ n) := by omega
    have hnK : ¬ (1000 ≤ n) := by omega
    simp [formatNumber, hnM, hnK]

/-- C15 (amended) at 1,234,567, at 5000 and at 999 in the `en-US` locale. -/
theorem formatNumber_by_value_witness :
    formatNumber enUSNumber (some 1234567) = some (.text "1.2M") ∧
    formatNumber enUSNumber (some 5000) = some (.text "5.0K") ∧
    formatNumber enUSNumber (some 999) = some (.text "999") ∧
    ∃ s, formatNumber enUSNumber (some 5000) = some (.text (s ++ "K")) ∧
      IsOneDecimalOf s (((5000 : Int) : ℚ) / 1000) :=
  ⟨by decide, by decide, by decide,
   (formatNumber_by_value enUSNumber 5000 (by decide)).2.1 (by decide) (by decide)⟩

/-- C15 (as stated) fails: -5000 has the absolute value 5000, yet it is not
abbreviated like 5000; it is rendered in full. -/
theorem formatNumber_negative_not_abbreviated :
    formatNumber enUSNumber (some 5000) = some (.text "5.0K") ∧
    formatNumber enUSNumber (some (-5000)) = some (.text "-5,000") ∧
    formatNumber enUSNumber (some (-5000)) ≠ some (.text "-5.0K") ∧
    formatNumber enUSNumber (some (-2500000)) = some (.text "-2,500,000") := by
  decide

/-- C16 (amended): for `null` and `undefined` `formatNumber` returns the Number
`0`, displayed as `0`, and does not throw; for the number 0 it returns the
locale rendering of zero, the string `0` in a locale that writes zero so. -/
theorem formatNumber_absent (toLocaleString : Int → String) :
    formatNumber toLocaleString none = some .zero ∧
    (formatNumber toLocaleString none).map Formatted.display = some "0" ∧
    (toLocaleString 0 = "0" → formatNumber toLocaleString (some 0) = some (.text "0")) := by
  refine ⟨rfl, rfl, fun h0 => ?_⟩
  simp [formatNumber, h0]

/-- C16 (amended) in the `en-US` locale. -/
theorem formatNumber_absent_witness :
    formatNumber enUSNumber none = some .zero ∧
    formatNumber enUSNumber (some 0) = some (.text "0") :=
  ⟨(formatNumber_absent enUSNumber).1, (formatNumber_absent enUSNumber).2.2 (by decide)⟩

/-- C16 (as stated) fails: for `null` and `undefined` the result is the Number
`0` of `|| 0`, not the string `0`. -/
theorem formatNumber_absent_is_number :
    formatNumber enUSNumber none = some Formatted.zero ∧
    formatNumber enUSNumber none ≠ some (Formatted.text "0") := by
  decide

/-! ## App.js -/

/-- A resolved snapshot request writes its answer whatever is selected by then. -/
theorem settleSelection_resolved (selection : String) (s : AppState) (r : Option Snapshot) :
    (settleSelection selection s (.resolved r)).data = r ∧
    (settleSelection selection s (.resolved r)).selectedCountry = s.selectedCountry := by
  unfold settleSelection
  split_ifs <;> exact ⟨rfl, rfl⟩

/-- After a selection the selected value is the one chosen. -/
theorem selectCountry_selected (s : AppState) (value : String) :
    (selectCountry s value).selectedCountry = value := by
  unfold selectCountry
  split_ifs with h1 h2
  · exact h1.symm
  · rfl
  · rfl

/-- C17 (amended): no completion is discarded.  When `a` is selected, then `b`,
and the answer for `a` arrives after the answer for `b`, the published
snapshot after both completions is the answer for `a`, the last to arrive,
while the selection is `b`. -/
theorem last_completion_wins (s : AppState) (a b : String) (ra rb : Option Snapshot) :
    (overlappingRun s a b ra rb).data = ra ∧
    (overlappingRun s a b ra rb).selectedCountry = b := by
  unfold overlappingRun
  refine ⟨(settleSelection_resolved a _ ra).1, ?_⟩
  rw [(settleSelection_resolved a _ ra).2, (settleSelection_resolved b _ rb).2]
  exact selectCountry_selected _ b

/-- C17 (as stated) fails: Italy is selected, then Spain; the answer for Italy
arrives last and is published, although Spain is selected. -/
theorem stale_completion_published :
    (overlappingRun mount "Italy" "Spain" (some italySnapshot) (some spainSnapshot)).data =
      some italySnapshot ∧
    (overlappingRun mount "Italy" "Spain" (some italySnapshot)
      (some spainSnapshot)).selectedCountry = "Spain" ∧
    (overlappingRun mount "Italy" "Spain" (some italySnapshot) (some spainSnapshot)).data ≠
      some spainSnapshot := by
  decide

/-- C18: a failed `fetchGlobalData` or `fetchCountryData` leaves the snapshot
and the entity collection as they were before the fetch, sets the error
message, which for a country contains the country's name, and issues no
request beyond the one of the fetch itself. -/
theorem selection_fetch_failure (s : AppState) (country : String) :
    ((fetchGlobalDataSettle (fetchGlobalDataDispatch s) .rejected).data = s.data ∧
     (fetchGlobalDataSettle (fetchGlobalDataDispatch s) .rejected).countries = s.countries ∧
     (fetchGlobalDataSettle (fetchGlobalDataDispatch s) .rejected).error =
       some "Failed to fetch global data." ∧
     (fetchGlobalDataSettle (fetchGlobalDataDispatch s) .rejected).requests =
       s.requests ++ [urlAll]) ∧
    ((fetchCountryDataSettle country (fetchCountryDataDispatch country s) .rejected).data =
       s.data ∧
     (fetchCountryDataSettle country (fetchCountryDataDispatch country s) .rejected).countries =
       s.countries ∧
     (∃ msg, (fetchCountryDataSettle country (fetchCountryDataDispatch country s)
         .rejected).error = some msg ∧ country.data <:+: msg.data) ∧
     (fetchCountryDataSettle country (fetchCountryDataDispatch country s) .rejected).requests =
       s.requests ++ [urlCountry country]) ∧
    (∀ t : AppState,
      (fetchGlobalDataSettle t .rejected).data = t.data ∧
      (fetchGlobalDataSettle t .rejected).countries = t.countries ∧
      (fetchGlobalDataSettle t .rejected).requests = t.requests ∧
      (fetchCountryDataSettle country t .rejected).data = t.data ∧
      (fetchCountryDataSettle country t .rejected).countries = t.countries ∧
      (fetchCountryDataSettle country t .rejected).requests = t.requests) := by
  refine ⟨⟨rfl, rfl, rfl, rfl⟩, ⟨rfl, rfl, ⟨_, rfl, ?_⟩, rfl⟩,
    fun t => ⟨rfl, rfl, rfl, rfl, rfl, rfl⟩⟩
  simp only [String.data_append]
  exact List.infix_append _ _ _

/-- C18 at a failed fetch for Italy from a state that shows Spain. -/
theorem selection_fetch_failure_witness :
    (fetchCountryDataSettle "Italy" (fetchCountryDataDispatch "Italy" loadedApp)
      .rejected).data = some spainSnapshot ∧
    (fetchCountryDataSettle "Italy" (fetchCountryDataDispatch "Italy" loadedApp)
      .rejected).countries = threeCountries ∧
    (fetchCountryDataSettle "Italy" (fetchCountryDataDispatch "Italy" loadedApp)
      .rejected).error = some "Failed to fetch data for Italy." :=
  ⟨(selection_fetch_failure loadedApp "Italy").2.1.1,
   (selection_fetch_failure loadedApp "Italy").2.1.2.1, by decide⟩

/-- C19: the initial load is both-or-neither.  When one of the two joined
requests rejects, `fetchData` leaves the snapshot and the entity collection as
they were and sets its one error message; when both resolve it stores both
answers and sets no error. -/
theorem fetchData_both_or_neither (s : AppState) (globalResponse : Settled (Option Snapshot))
    (countriesResponse : Settled (List Country)) :
    ((globalResponse = .rejected ∨ countriesResponse = .rejected) →
      (fetchDataSettle s globalResponse countriesResponse).data = s.data ∧
      (fetchDataSettle s globalResponse countriesResponse).countries = s.countries ∧
      (fetchDataSettle s globalResponse countriesResponse).error =
        some "Failed to fetch data. Please try again later.") ∧
    (∀ g cs, globalResponse = .resolved g → countriesResponse = .resolved cs →
      (fetchDataSettle s globalResponse countriesResponse).data = g ∧
      (fetchDataSettle s globalResponse countriesResponse).countries = cs ∧
      (fetchDataSettle s globalResponse countriesResponse).error = s.error) := by
  constructor
  · intro h
    cases globalResponse <;> cases countriesResponse <;> simp_all [fetchDataSettle]
  · intro g cs hg hc
    subst hg hc
    exact ⟨rfl, rfl, rfl⟩

/-- C19 on mount: the global snapshot resolves and the collection rejects, and
neither is stored; both resolve, and both are stored. -/
theorem fetchData_both_or_neither_witness :
    (fetchDataSettle mount (.resolved (some spainSnapshot)) .rejected).data = none ∧
    (fetchDataSettle mount (.resolved (some spainSnapshot)) .rejected).countries = [] ∧
    (fetchDataSettle mount (.resolved (some spainSnapshot)) (.resolved threeCountries)).data =
      some spainSnapshot ∧
    (fetchDataSettle mount (.resolved (some spainSnapshot))
      (.resolved threeCountries)).countries = threeCountries :=
  ⟨((fetchData_both_or_neither mount (.resolved (some spainSnapshot)) .rejected).1
      (Or.inr rfl)).1,
   ((fetchData_both_or_neither mount (.resolved (some spainSnapshot)) .rejected).1
      (Or.inr rfl)).2.1,
   ((fetchData_both_or_neither mount (.resolved (some spainSnapshot))
      (.resolved threeCountries)).2 _ _ rfl rfl).1,
   ((fetchData_both_or_neither mount (.resolved (some spainSnapshot))
      (.resolved threeCountries)).2 _ _ rfl rfl).2.1⟩

/-! ## GlobalChart.js: a failed fetch -/

/-- The map throws on its first key when the `deaths` or the `recovered` map
is absent. -/
theorem formattedData_throws (host : DateHost) (h : Timeline) (c : JSObj) (hne : c ≠ [])
    (habs : h.deaths = none ∨ h.recovered = none) : formattedData host h c = none := by
  cases c with
  | nil => exact absurd rfl hne
  | cons kv rest =>
      have hp : ∀ i len, formatPoint host h (kv :: rest) kv.1 i len = none := by
        intro i len
        unfold formatPoint
        rcases habs with hd | hr
        · simp [readEntry, hd]
        · cases hdv : readEntry h.deaths kv.1 with
          | none => simp
          | some dv => simp [readEntry, hr]
      simp [formattedData, objectKeys, mapWithIndex, hp]

/-- C20: when a historical fetch fails, the request rejecting or the `try`
block throwing (the body is `null` for a country, or the `deaths` or
`recovered` map is absent beside a non-empty `cases` map), the series becomes
empty and the summary `{ lastUpdate: null, dataPoints: 0 }`, whatever was held
before. -/
theorem fetch_failure_clears (host : DateHost) (selectedCountry : String) (s : ChartState)
    (response : Response)
    (hfail : response = .rejected ∨
      (∃ data, response = .resolved data ∧ historicalDataOf selectedCountry data = none) ∨
      (∃ data h c, response = .resolved data ∧
        historicalDataOf selectedCountry data = some (some h) ∧ h.cases = some c ∧ c ≠ [] ∧
        (h.deaths = none ∨ h.recovered = none))) :
    (fetchHistoricalData host selectedCountry s response).chartData = [] ∧
    (fetchHistoricalData host selectedCountry s response).dataAvailability =
      { lastUpdate := none, dataPoints := 0 } ∧
    (fetchHistoricalData host selectedCountry s response).loading = false := by
  rcases hfail with rfl | ⟨data, rfl, hnone⟩ | ⟨data, h, c, rfl, hsome, hc, hne, habs⟩
  · exact ⟨rfl, rfl, rfl⟩
  · simp [fetchHistoricalData, hnone, fetchFailed]
  · have hlen : (objectKeys c).length ≠ 0 := by simpa [objectKeys] using hne
    simp [fetchHistoricalData, hsome, normalize, hc, hlen,
      formattedData_throws host h c hne habs, fetchFailed]

/-- C20 after a successful fetch of two days: a rejected request, and an answer
without a `deaths` map, both clear the series and the summary. -/
theorem fetch_failure_clears_witness :
    (fetchHistoricalData enUS "Global"
      (fetchHistoricalData enUS "Global" ChartState.initial (.resolved (some twoDayBody)))
      .rejected).dataAvailability = { lastUpdate := none, dataPoints := 0 } ∧
    (fetchHistoricalData enUS "Italy"
      (fetchHistoricalData enUS "Global" ChartState.initial (.resolved (some twoDayBody)))
      (.resolved (some noDeathsBody))).chartData = [] :=
  ⟨(fetch_failure_clears enUS "Global" _ .rejected (Or.inl rfl)).2.1,
   (fetch_failure_clears enUS "Italy" _ (.resolved (some noDeathsBody))
      (Or.inr (Or.inr ⟨_, noDeathsTimeline, [("1/1/24", 10)], rfl, by decide, rfl,
        by decide, Or.inl rfl⟩))).1⟩

/-! ## GlobalChart.js: summary, labels, determinism, pie chart -/

/-- C21: after a historical fetch that publishes a non-empty series, the
summary counts the points of that series and its `lastUpdate` is the full date
of the final point. -/
theorem summary_of_series (host : DateHost) (selectedCountry : String) (s : ChartState)
    (response : Response)
    (hne : (fetchHistoricalData host selectedCountry s response).chartData ≠ []) :
    (fetchHistoricalData host selectedCountry s response).dataAvailability.dataPoints =
      (fetchHistoricalData host selectedCountry s response).chartData.length ∧
    ∃ final, (fetchHistoricalData host selectedCountry s response).chartData.getLast? =
        some final ∧
      (fetchHistoricalData host selectedCountry s response).dataAvailability.lastUpdate =
        some final.fullDate := by
  cases response with
  | rejected => exact absurd rfl hne
  | resolved data =>
      simp only [fetchHistoricalData] at hne ⊢
      cases hh : historicalDataOf selectedCountry data with
      | none => simp [hh, fetchFailed] at hne
      | some hd =>
          simp only [hh] at hne ⊢
          cases hd with
          | none => simp [normalize] at hne
          | some h =>
              cases hc : h.cases with
              | none => simp [normalize, hc] at hne
              | some c =>
                  by_cases hl : (objectKeys c).length = 0
                  · simp [normalize, hc, hl] at hne
                  · cases hf : formattedData host h c with
                    | none => simp [normalize, hc, hl, hf, fetchFailed] at hne
                    | some pts =>
                        have hpts : pts ≠ [] := by simpa [normalize, hc, hl, hf] using hne
                        obtain ⟨final, hfinal⟩ : ∃ final, pts.getLast? = some final := by
                          cases hg : pts.getLast? with
                          | none => exact absurd (List.getLast?_eq_none_iff.1 hg) hpts
                          | some x => exact ⟨x, rfl⟩
                        simp [normalize, hc, hl, hf, hfinal]

/-- C21 at the two-day scenario: two points, the last of them 2 January 2024. -/
theorem summary_of_series_witness :
    (fetchHistoricalData enUS "Global" ChartState.initial
      (.resolved (some twoDayBody))).dataAvailability.dataPoints =
      (fetchHistoricalData enUS "Global" ChartState.initial
        (.resolved (some twoDayBody))).chartData.length ∧
    (fetchHistoricalData enUS "Global" ChartState.initial
      (.resolved (some twoDayBody))).dataAvailability = twoDaySummary :=
  ⟨(summary_of_series enUS "Global" ChartState.initial (.resolved (some twoDayBody))
      (by decide)).1, by decide⟩

/-- The series that normalizing publishes does not depend on the state before. -/
theorem normalize_chartData_state (host : DateHost) (s₁ s₂ : ChartState)
    (historicalData : Option Timeline) :
    (normalize host s₁ historicalData).chartData =
      (normalize host s₂ historicalData).chartData := by
  cases historicalData with
  | none => rfl
  | some h =>
      simp only [normalize]
      cases h.cases with
      | none => rfl
      | some c =>
          by_cases hl : (objectKeys c).length = 0
          · simp [hl]
          · cases hf : formattedData host h c <;> simp [hl, hf, fetchFailed]

/-- C23: normalizing is deterministic and idempotent.  The series published
for a payload is the same from every prior state of the component, normalizing
the same payload again publishes the same series, and so do two fetches that
receive the same response; the series agree at every position. -/
theorem normalize_idempotent (host : DateHost) (s₁ s₂ : ChartState)
    (historicalData : Option Timeline) (selectedCountry : String) (response : Response) :
    (normalize host s₁ historicalData).chartData =
      (normalize host s₂ historicalData).chartData ∧
    (normalize host (normalize host s₁ historicalData) historicalData).chartData =
      (normalize host s₁ historicalData).chartData ∧
    (fetchHistoricalData host selectedCountry s₁ response).chartData =
      (fetchHistoricalData host selectedCountry s₂ response).chartData ∧
    (∀ i : Nat, (normalize host s₁ historicalData).chartData[i]? =
      (normalize host s₂ historicalData).chartData[i]?) := by
  refine ⟨normalize_chartData_state host s₁ s₂ _, normalize_chartData_state host _ s₁ _, ?_,
    fun i => by rw [normalize_chartData_state host s₁ s₂]⟩
  cases response with
  | rejected => rfl
  | resolved data =>
      simp only [fetchHistoricalData]
      cases historicalDataOf selectedCountry data with
      | none => rfl
      | some hd => exact normalize_chartData_state host s₁ s₂ hd

/-- C25: the three values of the pie chart are `recovered` (0 when absent),
the `activeCases` of the Dashboard, and `deaths`; they sum to `cases`. -/
theorem pieData_sums_to_cases (data : Snapshot) :
    ((pieData (some data)).map (·.value)).sum = data.cases ∧
    (pieData (some data)).map (fun slice => (slice.name, slice.value)) =
      [("Recovered", data.recovered.getD 0), ("Active", activeCases data),
       ("Deaths", data.deaths)] := by
  constructor
  · simp only [pieData, List.map_cons, List.map_nil, List.sum_cons, List.sum_nil]
    omega
  · simp [pieData, activeCases, orZero_eq_getD]

/-- C25 at the scenario snapshot and at a snapshot without `recovered`. -/
theorem pieData_sums_to_cases_witness :
    (pieData (some ⟨1000, 50, some 800⟩)).map (·.value) = [800, 150, 50] ∧
    (pieData (some noRecoveredSnapshot)).map (·.value) = [0, 950, 50] ∧
    ((pieData (some noRecoveredSnapshot)).map (·.value)).sum = 1000 :=
  ⟨by decide, by decide, (pieData_sums_to_cases noRecoveredSnapshot).1⟩

/-- A successful map has one value per element, the value at position `i`
being that of the callback on the element at `i` with the index `k + i`. -/
theorem mapWithIndex_getElem {α β : Type} (f : α → Nat → Option β) (l : List α) (k : Nat)
    (bs : List β) (h : mapWithIndex f k l = some bs) :
    bs.length = l.length ∧
    ∀ (i : Nat) (b : β), bs[i]? = some b → ∃ a, l[i]? = some a ∧ f a (k + i) = some b := by
  induction l generalizing k bs with
  | nil =>
      simp only [mapWithIndex, Option.some.injEq] at h
      subst h
      exact ⟨rfl, fun i b hb => by simp at hb⟩
  | cons a as ih =>
      simp only [mapWithIndex] at h
      cases hfa : f a k with
      | none => simp [hfa] at h
      | some b0 =>
          cases hrest : mapWithIndex f (k + 1) as with
          | none => simp [hfa, hrest] at h
          | some bs0 =>
              simp only [hfa, hrest, Option.some.injEq] at h
              subst h
              obtain ⟨hlen, hget⟩ := ih (k + 1) bs0 hrest
              refine ⟨by simp [hlen], fun i b hb => ?_⟩
              cases i with
              | zero =>
                  simp only [List.getElem?_cons_zero, Option.some.injEq] at hb
                  subst hb
                  exact ⟨a, by simp, by simpa using hfa⟩
              | succ j =>
                  simp only [List.getElem?_cons_succ] at hb
                  obtain ⟨x, hx, hfx⟩ := hget j b hb
                  refine ⟨x, by simpa using hx, ?_⟩
                  have e : k + (j + 1) = k + 1 + j := by omega
                  rw [e]
                  exact hfx

/-- The labels of the point the callback returns. -/
theorem formatPoint_labels (host : DateHost) (h : Timeline) (cases : JSObj) (date : String)
    (index length : Nat) (p : ChartPoint)
    (hp : formatPoint host h cases date index length = some p) :
    p.dateShort = host.monthDay (host.parse date) ∧
    p.fullDate = host.fullDate (host.parse date) ∧
    p.date = if index % 5 = 0 ∨ index + 1 = length then
        host.weekdayShort (host.parse date) ++ "\n" ++ host.monthDay (host.parse date)
      else host.monthDay (host.parse date) := by
  unfold formatPoint at hp
  cases hd : readEntry h.deaths date with
  | none => simp [hd] at hp
  | some dv =>
      cases hr : readEntry h.recovered date with
      | none => simp [hd, hr] at hp
      | some rv =>
          simp only [hd, hr, Option.some.injEq] at hp
          subst hp
          refine ⟨rfl, rfl, ?_⟩
          have hcond : (index % 5 == 0 || (index : Int) == (length : Int) - 1) =
              decide (index % 5 = 0 ∨ index + 1 = length) := by
            by_cases h5 : index % 5 = 0
            · simp [h5]
            · by_cases hl : index + 1 = length
              · have : (index : Int) = (length : Int) - 1 := by omega
                simp [h5, hl, this]
              · have : ¬ (index : Int) = (length : Int) - 1 := by omega
                simp [h5, hl, this]
          simp only [hcond, decide_eq_true_eq]

/-- A label with the weekday in front is never the bare month-day label. -/
theorem dayLabel_ne (weekday monthDay : String) : weekday ++ "\n" ++ monthDay ≠ monthDay := by
  intro h
  have := congrArg String.length h
  simp only [String.length_append] at this
  have h1 : ("\n" : String).length = 1 := by decide
  omega

/-- The label rule on a formatted series. -/
theorem formattedData_labels (host : DateHost) (h : Timeline) (c : JSObj)
    (pts : List ChartPoint) (hf : formattedData host h c = some pts) (i : Nat)
    (p : ChartPoint) (hp : pts[i]? = some p) :
    ∃ key, (objectKeys c)[i]? = some key ∧
      p.dateShort = host.monthDay (host.parse key) ∧
      p.fullDate = host.fullDate (host.parse key) ∧
      (CarriesDayLabel host key p ↔ (i % 5 = 0 ∨ i + 1 = pts.length)) ∧
      (¬ (i % 5 = 0 ∨ i + 1 = pts.length) → p.date = p.dateShort) := by
  obtain ⟨hlen, hget⟩ := mapWithIndex_getElem _ _ _ _ hf
  obtain ⟨key, hkey, hfp⟩ := hget i p hp
  rw [Nat.zero_add] at hfp
  obtain ⟨h1, h2, h3⟩ := formatPoint_labels host h c key i _ p hfp
  rw [← hlen] at h3
  refine ⟨key, hkey, h1, h2, ?_, ?_⟩
  · unfold CarriesDayLabel
    by_cases hcond : i % 5 = 0 ∨ i + 1 = pts.length
    · rw [if_pos hcond] at h3
      exact ⟨fun _ => hcond, fun _ => h3⟩
    · rw [if_neg hcond] at h3
      constructor
      · intro hcarry
        rw [h3] at hcarry
        exact absurd hcarry.symm (dayLabel_ne _ _)
      · intro hc
        exact absurd hc hcond
  · intro hcond
    rw [if_neg hcond] at h3
    rw [h3, h1]

/-- C24: in every series a fetch publishes, the point at index `i` of the `n`
points carries the day-of-week label exactly when `i` is a multiple of 5 or
`i = n - 1`; every other point carries the month-day label alone.  So the first
and the final point always carry the day-of-week label. -/
theorem day_label_rule (host : DateHost) (selectedCountry : String) (s : ChartState)
    (response : Response) (i : Nat) (p : ChartPoint)
    (hp : (fetchHistoricalData host selectedCountry s response).chartData[i]? = some p) :
    ∃ key, p.dateShort = host.monthDay (host.parse key) ∧
      p.fullDate = host.fullDate (host.parse key) ∧
      (CarriesDayLabel host key p ↔
        (i % 5 = 0 ∨
          i + 1 = (fetchHistoricalData host selectedCountry s response).chartData.length)) ∧
      (¬ (i % 5 = 0 ∨
          i + 1 = (fetchHistoricalData host selectedCountry s response).chartData.length) →
        p.date = p.dateShort) := by
  rcases fetch_chartData_cases host selectedCountry s response with h0 | ⟨h, c, hf⟩
  · rw [h0] at hp
    simp at hp
  · obtain ⟨key, -, h1, h2, h3, h4⟩ := formattedData_labels host h c _ hf i p hp
    exact ⟨key, h1, h2, h3, h4⟩

/-- C24 at a series of seven days: the points 0, 5 and 6 carry the weekday. -/
theorem day_label_rule_witness :
    (fetchHistoricalData enUS "Global" ChartState.initial
      (.resolved (some sevenDayBody))).chartData.map (·.date) =
      ["Mon\nJan 1", "Jan 2", "Jan 3", "Jan 4", "Jan 5", "Sat\nJan 6", "Sun\nJan 7"] ∧
    ∃ key, secondPoint.dateShort = enUS.monthDay (enUS.parse key) ∧
      secondPoint.fullDate = enUS.fullDate (enUS.parse key) ∧
      (CarriesDayLabel enUS key secondPoint ↔
        (1 % 5 = 0 ∨
          1 + 1 = (fetchHistoricalData enUS "Global" ChartState.initial
            (.resolved (some twoDayBody))).chartData.length)) ∧
      (¬ (1 % 5 = 0 ∨
          1 + 1 = (fetchHistoricalData enUS "Global" ChartState.initial
            (.resolved (some twoDayBody))).chartData.length) →
        secondPoint.date = secondPoint.dateShort) :=
  ⟨by decide,
   day_label_rule enUS "Global" ChartState.initial (.resolved (some twoDayBody)) 1 secondPoint
     (by decide)⟩

/-! ## CountryStats.js: the ranking on the array store -/

/-- Reading an array that was in the store before an allocation. -/
theorem read_alloc_old (store : ArrayStore) (elements : List Country) (ref : Nat)
    (h : ref < store.length) : (store.alloc elements).1.read ref = store.read ref := by
  simp [ArrayStore.read, ArrayStore.alloc, List.getElem?_append_left h]

/-- Reading the array an allocation has created. -/
theorem read_alloc_new (store : ArrayStore) (elements : List Country) :
    (store.alloc elements).1.read (store.alloc elements).2 = elements := by
  simp [ArrayStore.read, ArrayStore.alloc]

/-- Sorting the array that was allocated last rewrites that array alone. -/
theorem sort_last_allocated (sortBy : SortKey) (store : ArrayStore) (elements : List Country) :
    (arraySortInPlace sortBy (store.alloc elements).1 (store.alloc elements).2).1 =
      store ++ [arraySort sortBy elements] := by
  simp [arraySortInPlace, ArrayStore.alloc, ArrayStore.read]

/-- C22: the ranking does not mutate the collection it is given.  `sort` works
in place, but on the array `filter` has just created: after the ranking every
array that was in the store, the collection among them, holds the elements it
held before in the same order, and the array returned is the ranking of the
collection. -/
theorem ranking_leaves_collection (toLowerCase : String → String) (store : ArrayStore)
    (countries : Nat) (searchTerm : String) (sortBy : SortKey)
    (hvalid : countries < store.length) :
    (filteredCountriesInStore toLowerCase store countries searchTerm sortBy).1.read countries =
      store.read countries ∧
    (∀ ref, ref < store.length →
      (filteredCountriesInStore toLowerCase store countries searchTerm sortBy).1.read ref =
        store.read ref) ∧
    (filteredCountriesInStore toLowerCase store countries searchTerm sortBy).1.read
        (filteredCountriesInStore toLowerCase store countries searchTerm sortBy).2 =
      filteredCountries toLowerCase (store.read countries) searchTerm sortBy ∧
    (filteredCountriesInStore toLowerCase store countries searchTerm sortBy).1.read
        store.length =
      arraySort sortBy (matching toLowerCase (store.read countries) searchTerm) := by
  have hsorted : (arraySortInPlace sortBy
      (arrayFilter store countries (nameMatches toLowerCase searchTerm)).1
      (arrayFilter store countries (nameMatches toLowerCase searchTerm)).2) =
      (store ++ [arraySort sortBy (matching toLowerCase (store.read countries) searchTerm)],
        store.length) := by
    refine Prod.ext ?_ rfl
    exact sort_last_allocated sortBy store _
  have hold : ∀ ref, ref < store.length →
      (filteredCountriesInStore toLowerCase store countries searchTerm sortBy).1.read ref =
        store.read ref := by
    intro ref href
    simp only [filteredCountriesInStore, hsorted, arraySliceTen]
    rw [read_alloc_old _ _ _ (by simp; omega)]
    simp [ArrayStore.read, List.getElem?_append_left href]
  refine ⟨hold countries hvalid, hold, ?_, ?_⟩
  · simp only [filteredCountriesInStore, hsorted, arraySliceTen]
    rw [read_alloc_new]
    simp [ArrayStore.read, filteredCountries]
  · simp only [filteredCountriesInStore, hsorted, arraySliceTen]
    rw [read_alloc_old _ _ _ (by simp)]
    simp [ArrayStore.read]

/-- C22 at the three entities, the store holding the collection alone: the
collection is unchanged, the ranking `[B, C, A]` is a new array. -/
theorem ranking_leaves_collection_witness :
    (filteredCountriesInStore asciiLowerCase [threeCountries] 0 "" SortKey.cases).1.read 0 =
      threeCountries ∧
    ((filteredCountriesInStore asciiLowerCase [threeCountries] 0 "" SortKey.cases).1.read
      (filteredCountriesInStore asciiLowerCase [threeCountries] 0 "" SortKey.cases).2).map
        (·.country) = ["B", "C", "A"] :=
  ⟨(ranking_leaves_collection asciiLowerCase [threeCountries] 0 "" SortKey.cases
      (by decide)).1, by decide⟩

end CoronaLive
